import Mathlib

/-!
Verification development for the Directory Analytics tool
(src/database.py, src/scanner.py, src/config.py).

The snapshot store (the SQLite `files` table) is embedded as a list of
rows plus the AUTOINCREMENT counter.  SQL statements become pure
functions on that state; timestamps are opaque strings supplied by the
caller (`now`); the filesystem seen by the hashing phase is an oracle
`disk : String → Option String` (`none` models a missing or unreadable
file, mirroring the `os.path.exists` check plus `calculate_hash`
returning `None`).  A failed `INSERT` against the `full_path UNIQUE`
constraint aborts the whole transaction (sqlite3 raises
`IntegrityError`, `conn.commit()` is never reached, so the connection
closes with a rollback); this is modelled by `Option`: `none` means the
run aborted and the store keeps its prior state.
-/

namespace DirAnalytics

/-- One row of the `files` table, from the schema in `init_db`
(src/database.py).  `file_size_bytes` is a byte count (`Nat`); nullable
columns are `Option`; `is_deleted INTEGER DEFAULT 0` is a `Bool`. -/
structure FileRecord where
  id : Nat
  file_name : String
  file_extension : String
  file_size_bytes : Nat
  file_size_readable : String
  parent_directory : String
  full_path : String
  scan_root_directory : String
  created_timestamp : Option String
  modified_timestamp : Option String
  file_hash : Option String
  duplicate_group : Option Nat
  hash_computed_at : Option String
  is_deleted : Bool
  first_seen : String
  last_seen : String
  deleted_at : Option String
deriving DecidableEq, Repr

/-- Default row used as the out-of-range fallback of `List.getD`. -/
def defaultRecord : FileRecord :=
  { id := 0, file_name := "", file_extension := "", file_size_bytes := 0,
    file_size_readable := "", parent_directory := "", full_path := "",
    scan_root_directory := "", created_timestamp := none,
    modified_timestamp := none, file_hash := none, duplicate_group := none,
    hash_computed_at := none, is_deleted := false, first_seen := "",
    last_seen := "", deleted_at := none }

/-- The metadata dictionary produced by `get_file_metadata`
(src/scanner.py); `file_hash` is always `None` during the walk (lazy
hashing) but kept as a field because `upsert`/`INSERT` reads it. -/
structure Metadata where
  file_name : String
  file_extension : String
  file_size_bytes : Nat
  file_size_readable : String
  parent_directory : String
  full_path : String
  created_timestamp : Option String
  modified_timestamp : Option String
  file_hash : Option String
deriving DecidableEq, Repr

/-- The persisted store: the `files` table rows in insertion order plus
the next AUTOINCREMENT id. -/
structure DB where
  rows : List FileRecord
  nextId : Nat
deriving DecidableEq, Repr

/-- The counters accumulated by `bulk_sync_database` (src/scanner.py). -/
structure Stats where
  inserted : Nat
  updated : Nat
  restored : Nat
  deleted : Nat
deriving DecidableEq, Repr

def initStats : Stats := ⟨0, 0, 0, 0⟩

/-- Configuration constant `MAX_SAME_SIZE_FILES` (src/config.py). -/
def MAX_SAME_SIZE_FILES : Nat := 100

/-- Configuration constant `MIN_FILE_SIZE_FOR_HASH` (src/config.py). -/
def MIN_FILE_SIZE_FOR_HASH : Nat := 1

/-- The row built by the `INSERT INTO files (...)` statement shared by
`upsert_file` (src/database.py) and `process_batch` (src/scanner.py):
`is_deleted = 0`, `first_seen = last_seen = now`, `duplicate_group`,
`hash_computed_at` and `deleted_at` left NULL. -/
def insertedRecord (nid : Nat) (m : Metadata) (scan_root now : String) : FileRecord :=
  { id := nid, file_name := m.file_name, file_extension := m.file_extension,
    file_size_bytes := m.file_size_bytes,
    file_size_readable := m.file_size_readable,
    parent_directory := m.parent_directory, full_path := m.full_path,
    scan_root_directory := scan_root,
    created_timestamp := m.created_timestamp,
    modified_timestamp := m.modified_timestamp, file_hash := m.file_hash,
    duplicate_group := none, hash_computed_at := none, is_deleted := false,
    first_seen := now, last_seen := now, deleted_at := none }

/-- The `INSERT` against the `full_path UNIQUE` constraint: `none` when a
row with this path already exists (sqlite3 `IntegrityError`). -/
def sqlInsertFile (db : DB) (m : Metadata) (scan_root now : String) : Option DB :=
  if db.rows.any (fun r => r.full_path == m.full_path) then none
  else some { rows := db.rows ++ [insertedRecord db.nextId m scan_root now],
              nextId := db.nextId + 1 }

/-- The column assignments of the `UPDATE files SET ... WHERE full_path = ?`
statement shared by `upsert_file` and `process_batch`: refreshes the
descriptive and temporal columns, re-activates the row
(`is_deleted = 0`, `deleted_at = NULL`), and does not touch `file_hash`,
`duplicate_group`, `hash_computed_at`, `first_seen` or `id`. -/
def updatedRecord (m : Metadata) (scan_root now : String) (r : FileRecord) : FileRecord :=
  { r with
    file_name := m.file_name, file_extension := m.file_extension,
    file_size_bytes := m.file_size_bytes,
    file_size_readable := m.file_size_readable,
    parent_directory := m.parent_directory,
    scan_root_directory := scan_root,
    created_timestamp := m.created_timestamp,
    modified_timestamp := m.modified_timestamp,
    is_deleted := false, last_seen := now, deleted_at := none }

/-- The `UPDATE ... WHERE full_path = ?` statement applied to the store. -/
def sqlUpdateFile (db : DB) (m : Metadata) (scan_root now : String) : DB :=
  { db with rows := db.rows.map (fun r =>
      if r.full_path = m.full_path then updatedRecord m scan_root now r else r) }

/-- The `UPDATE files SET is_deleted = 1, deleted_at = ? WHERE
full_path = ? AND is_deleted = 0` statement used by the soft-delete
phase of `bulk_sync_database` (and by `mark_deleted`). -/
def softDeletePath (db : DB) (p now : String) : DB :=
  { db with rows := db.rows.map (fun r =>
      if r.full_path = p ∧ r.is_deleted = false
      then { r with is_deleted := true, deleted_at := some now } else r) }

/-- One classified operation of the reconciliation diff
(`bulk_sync_database`): a new path becomes an insert, a known path an
update carrying the `was_deleted` flag read from the snapshot. -/
inductive SyncOp
  | ins (m : Metadata)
  | upd (m : Metadata) (wasDeleted : Bool)
deriving DecidableEq, Repr

/-- The `SELECT full_path, is_deleted FROM files WHERE
scan_root_directory = ?` snapshot that `bulk_sync_database` turns into
the `existing` dict.  Under the `full_path UNIQUE` constraint each key
occurs at most once, so an association list looked up with
`List.lookup` is the dict. -/
def existingForRoot (db : DB) (scan_root : String) : List (String × Bool) :=
  (db.rows.filter (fun r => r.scan_root_directory == scan_root)).map
    (fun r => (r.full_path, r.is_deleted))

/-- The batched insert/update loop of `process_batch` (src/scanner.py),
run inside the single transaction of `bulk_sync_database`: each insert
bumps `inserted`, each update bumps `restored` or `updated` according to
the `was_deleted` flag; an `IntegrityError` on insert aborts the whole
run (`none`). -/
def applyOps (scan_root now : String) : DB → Stats → List SyncOp → Option (DB × Stats)
  | db, stats, [] => some (db, stats)
  | db, stats, .ins m :: rest =>
      match sqlInsertFile db m scan_root now with
      | none => none
      | some db' =>
          applyOps scan_root now db' { stats with inserted := stats.inserted + 1 } rest
  | db, stats, .upd m wasDel :: rest =>
      let db' := sqlUpdateFile db m scan_root now
      let stats' := if wasDel then { stats with restored := stats.restored + 1 }
                    else { stats with updated := stats.updated + 1 }
      applyOps scan_root now db' stats' rest

/-- The soft-delete phase at the end of `bulk_sync_database`: for each
path of the prior snapshot that the walk did not observe, if the
snapshot recorded it as active (`existing.get(path) == 0`), soft-delete
it and bump the `deleted` counter. -/
def markMissingFold (existing : List (String × Bool)) (now : String) :
    DB × Stats → List String → DB × Stats
  | acc, [] => acc
  | (db, stats), p :: rest =>
      if existing.lookup p = some false then
        markMissingFold existing now
          (softDeletePath db p now, { stats with deleted := stats.deleted + 1 }) rest
      else
        markMissingFold existing now (db, stats) rest

/-- The classification loop of `bulk_sync_database`: each observed file
is looked up in the fixed prior snapshot (`if full_path in existing`)
and becomes an update (with its `was_deleted` flag) or an insert. -/
def syncOps (all_files : List Metadata) (existing : List (String × Bool)) : List SyncOp :=
  all_files.map (fun m =>
    match existing.lookup m.full_path with
    | some wasDel => SyncOp.upd m wasDel
    | none => SyncOp.ins m)

/-- The set difference `set(existing.keys()) - scanned_paths` of
`bulk_sync_database`, modelled by deduplicating the snapshot keys and
filtering out observed paths. -/
def missedPaths (existing : List (String × Bool)) (scanned : List String) : List String :=
  (existing.map Prod.fst).dedup.filter (fun p => !scanned.contains p)

/-- `bulk_sync_database` (src/scanner.py): fetch the path → is_deleted
snapshot for the scan root, classify every observed file against it,
apply the batch, then soft-delete the snapshot paths the walk missed.
`none` models the aborted (rolled-back) transaction. -/
def bulk_sync_database (all_files : List Metadata) (scan_root now : String)
    (db : DB) : Option (DB × Stats) :=
  let existing := existingForRoot db scan_root
  let scanned := all_files.map (fun m => m.full_path)
  match applyOps scan_root now db initStats (syncOps all_files existing) with
  | none => none
  | some (db1, stats1) =>
      some (markMissingFold existing now (db1, stats1) (missedPaths existing scanned))

/-- The store state after a reconciliation run: the committed state on
success, the prior state when the transaction aborted (rollback). -/
def syncState (all_files : List Metadata) (scan_root now : String) (db : DB) : DB :=
  match bulk_sync_database all_files scan_root now db with
  | some (db', _) => db'
  | none => db

/-- The statistics of a reconciliation run (meaningful only when the run
committed). -/
def syncStats (all_files : List Metadata) (scan_root now : String) (db : DB) : Stats :=
  match bulk_sync_database all_files scan_root now db with
  | some (_, stats) => stats
  | none => initStats

/-- Whether the reconciliation run committed. -/
def syncSome (all_files : List Metadata) (scan_root now : String) (db : DB) : Bool :=
  (bulk_sync_database all_files scan_root now db).isSome

/-- The filesystem facts `scan_directory` (src/scanner.py) consults: the
validation predicates on the target and the metadata records the
recursive walk would collect. -/
structure FSView where
  rootExists : Bool
  rootIsDir : Bool
  walkFiles : List Metadata
deriving Repr

/-- `scan_directory` (src/scanner.py): validation precedes everything —
a missing or non-directory target prints an error and returns `None`
before `init_db` or any store access; otherwise the walk's metadata is
handed to `bulk_sync_database`.  Result: reported statistics (if any)
and the resulting store state. -/
def scan_directory (fs : FSView) (scan_root now : String) (db : DB) :
    Option Stats × DB :=
  if fs.rootExists = false then (none, db)
  else if fs.rootIsDir = false then (none, db)
  else
    match bulk_sync_database fs.walkFiles scan_root now db with
    | none => (none, db)
    | some (db', stats) => (some stats, db')

/-- Member count of a size group as counted by the first query of
`get_size_candidates` (src/database.py): active rows of the scan root
whose size is at least the minimum hashable size, grouped by size. -/
def sizeCount (db : DB) (minSize : Nat) (scan_root : String) (s : Nat) : Nat :=
  (db.rows.filter (fun r => decide (r.is_deleted = false ∧
    minSize ≤ r.file_size_bytes ∧ r.scan_root_directory = scan_root ∧
    r.file_size_bytes = s))).length

/-- The sizes returned by the `GROUP BY file_size_bytes HAVING COUNT(*) > 1
AND COUNT(*) <= ? ORDER BY file_size_bytes DESC` query of
`get_size_candidates`. -/
def selectedSizes (db : DB) (minSize maxGroup : Nat) (scan_root : String) : List Nat :=
  List.insertionSort (fun a b => b ≤ a)
    ((((db.rows.filter (fun r => decide (r.is_deleted = false ∧
        minSize ≤ r.file_size_bytes ∧ r.scan_root_directory = scan_root))).map
      (fun r => r.file_size_bytes)).dedup).filter
      (fun s => decide (1 < sizeCount db minSize scan_root s ∧
        sizeCount db minSize scan_root s ≤ maxGroup)))

/-- The `(id, full_path, file_hash)` triples returned by the per-size
member query of `get_size_candidates` (no size floor in this second
query; the selected sizes already satisfy it). -/
def sizeMembers (db : DB) (scan_root : String) (s : Nat) :
    List (Nat × String × Option String) :=
  (db.rows.filter (fun r => decide (r.is_deleted = false ∧
    r.file_size_bytes = s ∧ r.scan_root_directory = scan_root))).map
    (fun r => (r.id, r.full_path, r.file_hash))

/-- `get_size_candidates` (src/database.py): the candidate dict
`size → [(id, full_path, file_hash)]`, in descending size order. -/
def get_size_candidates (db : DB) (minSize maxGroup : Nat) (scan_root : String) :
    List (Nat × List (Nat × String × Option String)) :=
  (selectedSizes db minSize maxGroup scan_root).map
    (fun s => (s, sizeMembers db scan_root s))

/-- The `UPDATE files SET file_hash = ?, hash_computed_at = ? WHERE id = ?`
statement of `compute_hashes_for_candidates`. -/
def writeHash (db : DB) (fid : Nat) (h now : String) : DB :=
  { db with rows := db.rows.map (fun r =>
      if r.id = fid then { r with file_hash := some h, hash_computed_at := some now }
      else r) }

/-- The inner hashing loop of `compute_hashes_for_candidates` over one
size group: skip members that already carry a hash, skip files the disk
oracle cannot hash (vanished or unreadable), otherwise write the hash
and count the file.  Returns the updated store and `files_hashed`. -/
def hashCandidates (disk : String → Option String) (now : String) :
    DB → List (Nat × String × Option String) → DB × Nat
  | db, [] => (db, 0)
  | db, (fid, path, ehash) :: rest =>
      match ehash with
      | some _ => hashCandidates disk now db rest
      | none =>
          match disk path with
          | none => hashCandidates disk now db rest
          | some h =>
              let res := hashCandidates disk now (writeHash db fid h now) rest
              (res.1, res.2 + 1)

/-- The outer hashing loop of `compute_hashes_for_candidates` over all
candidate size groups. -/
def hashAllCandidates (disk : String → Option String) (now : String) :
    DB → List (Nat × List (Nat × String × Option String)) → DB × Nat
  | db, [] => (db, 0)
  | db, (_, files) :: rest =>
      let r1 := hashCandidates disk now db files
      let r2 := hashAllCandidates disk now r1.1 rest
      (r2.1, r1.2 + r2.2)

/-- The `UPDATE files SET duplicate_group = NULL WHERE
scan_root_directory = ?` reset at the top of `assign_duplicate_groups`,
applied to one row: clears the group of every row of the root, deleted
rows included. -/
def resetFun (scan_root : String) (r : FileRecord) : FileRecord :=
  if r.scan_root_directory = scan_root then { r with duplicate_group := none } else r

/-- The group reset applied to the store. -/
def resetGroups (db : DB) (scan_root : String) : DB :=
  { db with rows := db.rows.map (resetFun scan_root) }

/-- The multiset of hashes of active hashed rows of the scan root — what
the `WHERE is_deleted = 0 AND file_hash IS NOT NULL AND
scan_root_directory = ? GROUP BY file_hash` query of
`assign_duplicate_groups` aggregates over. -/
def activeHashList (db : DB) (scan_root : String) : List String :=
  db.rows.filterMap (fun r =>
    if r.is_deleted = false ∧ r.scan_root_directory = scan_root then r.file_hash
    else none)

/-- The hash values selected by `HAVING COUNT(*) > 1` in
`assign_duplicate_groups`.  SQLite returns the groups in an unspecified
order; modelled as first-occurrence order, which only affects which
integer each hash receives, not membership. -/
def duplicateHashes (db : DB) (scan_root : String) : List String :=
  (activeHashList db scan_root).dedup.filter
    (fun h => decide (1 < (activeHashList db scan_root).count h))

/-- The `UPDATE files SET duplicate_group = ? WHERE file_hash = ? AND
is_deleted = 0 AND scan_root_directory = ?` statement, applied to one
row. -/
def setGroupFun (gid : Nat) (h scan_root : String) (r : FileRecord) : FileRecord :=
  if r.file_hash = some h ∧ r.is_deleted = false ∧ r.scan_root_directory = scan_root
  then { r with duplicate_group := some gid } else r

/-- The group-number assignment loop of `assign_duplicate_groups`
(`enumerate(duplicate_hashes, 1)`). -/
def assignLoop (scan_root : String) : DB → Nat → List String → DB
  | db, _, [] => db
  | db, gid, h :: rest =>
      assignLoop scan_root
        { db with rows := db.rows.map (setGroupFun gid h scan_root) } (gid + 1) rest

/-- `assign_duplicate_groups` (src/database.py): reset every group of
the scan root, find the hashes shared by at least two active rows, give
each a sequential group id starting at 1, and return the new store with
the number of duplicate groups. -/
def assign_duplicate_groups (db : DB) (scan_root : String) : DB × Nat :=
  let db1 := resetGroups db scan_root
  let dups := duplicateHashes db1 scan_root
  (assignLoop scan_root db1 1 dups, dups.length)

/-- `compute_hashes_for_candidates` (src/database.py): select the
candidate size groups; when there are none, return `(0, 0)` at once
(the early `if not candidates` return — no regrouping happens on this
path); otherwise hash the unhashed candidates and then regroup.
The progress callback is observational and not modelled. -/
def compute_hashes_for_candidates (disk : String → Option String)
    (minSize maxGroup : Nat) (db : DB) (scan_root now : String) : DB × Nat × Nat :=
  let candidates := get_size_candidates db minSize maxGroup scan_root
  if candidates = [] then (db, 0, 0)
  else
    let hp := hashAllCandidates disk now db candidates
    let ag := assign_duplicate_groups hp.1 scan_root
    (ag.1, hp.2, ag.2)

/-- The active rows of the scan root carrying a duplicate group — the
population aggregated by `get_duplicate_group_stats` (src/database.py). -/
def dupGroupRows (db : DB) (scan_root : String) : List FileRecord :=
  db.rows.filter (fun r => decide (r.is_deleted = false ∧
    r.duplicate_group ≠ none ∧ r.scan_root_directory = scan_root))

/-- The distinct duplicate-group ids of the scan root. -/
def groupIds (db : DB) (scan_root : String) : List Nat :=
  ((dupGroupRows db scan_root).filterMap (fun r => r.duplicate_group)).dedup

/-- The member rows of one duplicate group. -/
def groupMembers (db : DB) (scan_root : String) (g : Nat) : List FileRecord :=
  (dupGroupRows db scan_root).filter (fun r => decide (r.duplicate_group = some g))

/-- One group's contribution `(COUNT(*) - 1) * file_size_bytes` to the
wasted-space query of `get_duplicate_group_stats`.  SQLite evaluates the
bare `file_size_bytes` under `GROUP BY duplicate_group` at an
unspecified member row; modelled as the first member in row order. -/
def groupWasted (db : DB) (scan_root : String) (g : Nat) : Nat :=
  ((groupMembers db scan_root g).length - 1) *
    (((groupMembers db scan_root g).head?.map (fun r => r.file_size_bytes)).getD 0)

/-- The `total_wasted` sum of `get_duplicate_group_stats`. -/
def wasted_bytes (db : DB) (scan_root : String) : Nat :=
  ((groupIds db scan_root).map (fun g => groupWasted db scan_root g)).sum

/-! Schema invariants and specification predicates. -/

/-- The `full_path TEXT UNIQUE` constraint of the schema: no two rows
share a path. -/
def PathsUnique (db : DB) : Prop := (db.rows.map (fun r => r.full_path)).Nodup

/-- The `id INTEGER PRIMARY KEY` constraint: no two rows share an id. -/
def IdsUnique (db : DB) : Prop := (db.rows.map (fun r => r.id)).Nodup

/-- A row that is active (`is_deleted = 0`) and belongs to the given
scan root. -/
def activeIn (r : FileRecord) (scan_root : String) : Prop :=
  r.is_deleted = false ∧ r.scan_root_directory = scan_root

/-- Two optional values that agree on a present value. -/
def sharesVal {α : Type} (a b : Option α) : Prop := a ≠ none ∧ a = b

/-- Number of active rows of the scan root holding the given hash
(0 for an absent hash). -/
def optHashCount (db : DB) (scan_root : String) : Option String → Nat
  | none => 0
  | some h => (activeHashList db scan_root).count h

/-- Consistency of duplicate-group membership with content hashes: two
distinct active rows of the scan root share a non-absent
`duplicate_group` exactly when they share a non-absent `file_hash`, and
an active row whose hash is absent or held by no other active row
carries no group. -/
def GroupingOk (db : DB) (scan_root : String) : Prop :=
  (∀ i, i < db.rows.length → ∀ j, j < db.rows.length → i ≠ j →
    activeIn (db.rows.getD i defaultRecord) scan_root →
    activeIn (db.rows.getD j defaultRecord) scan_root →
    (sharesVal (db.rows.getD i defaultRecord).duplicate_group
        (db.rows.getD j defaultRecord).duplicate_group ↔
      sharesVal (db.rows.getD i defaultRecord).file_hash
        (db.rows.getD j defaultRecord).file_hash)) ∧
  (∀ i, i < db.rows.length →
    activeIn (db.rows.getD i defaultRecord) scan_root →
    optHashCount db scan_root (db.rows.getD i defaultRecord).file_hash ≤ 1 →
    (db.rows.getD i defaultRecord).duplicate_group = none)

/-! List helper lemmas. -/

lemma getD_eq_get {α : Type} (l : List α) (i : Nat) (h : i < l.length) (d : α) :
    l.getD i d = l.get ⟨i, h⟩ := by
  simp [List.getD_eq_getElem?_getD, List.getElem?_eq_getElem h]

lemma getD_mem_of_lt {α : Type} (l : List α) (i : Nat) (h : i < l.length) (d : α) :
    l.getD i d ∈ l := by
  rw [getD_eq_get l i h d]; exact List.get_mem l i h

lemma getD_map_of_lt {α β : Type} (f : α → β) (d : α) (e : β) :
    ∀ (l : List α) (i : Nat), i < l.length → (l.map f).getD i e = f (l.getD i d)
  | a :: l, 0, _ => rfl
  | a :: l, i + 1, h =>
      getD_map_of_lt f d e l i (Nat.lt_of_succ_lt_succ (by simpa using h))
  | [], i, h => absurd h (by simp)

lemma one_lt_count_of_two_getD {α β : Type} [DecidableEq β] (f : α → Option β)
    (d : α) (b : β) :
    ∀ (l : List α) (i j : Nat), i < j → j < l.length →
      f (l.getD i d) = some b → f (l.getD j d) = some b →
      1 < (l.filterMap f).count b := by
  intro l
  induction l with
  | nil => intro i j _ hj; simp at hj
  | cons a t ih =>
      intro i j hij hj hfi hfj
      match i, j with
      | 0, j + 1 =>
          have hjt : j < t.length := Nat.lt_of_succ_lt_succ (by simpa using hj)
          have hb : b ∈ t.filterMap f :=
            List.mem_filterMap.2 ⟨t.getD j d, getD_mem_of_lt t j hjt d, hfj⟩
          have h1 : 0 < (t.filterMap f).count b := List.count_pos_iff.2 hb
          have hfa : f a = some b := hfi
          have hstep : (a :: t).filterMap f = b :: t.filterMap f := by
            simp [List.filterMap_cons, hfa]
          rw [hstep, List.count_cons]
          simp only [beq_self_eq_true, if_true]
          omega
      | i + 1, j + 1 =>
          have hjt : j < t.length := Nat.lt_of_succ_lt_succ (by simpa using hj)
          have h1 : 1 < (t.filterMap f).count b :=
            ih i j (Nat.lt_of_succ_lt_succ hij) hjt hfi hfj
          cases hfa : f a with
          | none =>
              have hstep : (a :: t).filterMap f = t.filterMap f := by
                simp [List.filterMap_cons, hfa]
              rw [hstep]; exact h1
          | some c =>
              have hstep : (a :: t).filterMap f = c :: t.filterMap f := by
                simp [List.filterMap_cons, hfa]
              rw [hstep, List.count_cons]
              split <;> omega

/-! Characterization of `assign_duplicate_groups`: running the
assignment loop over a duplicate-free hash list acts pointwise on the
rows. -/

/-- Pointwise effect of the whole assignment loop started at group id
`gid` over a duplicate-free hash list `hs`. -/
def assignFun (scan_root : String) (gid : Nat) (hs : List String)
    (r : FileRecord) : FileRecord :=
  match r.file_hash with
  | none => r
  | some h =>
      if r.is_deleted = false ∧ r.scan_root_directory = scan_root ∧ h ∈ hs
      then { r with duplicate_group := some (gid + hs.indexOf h) }
      else r

lemma assignFun_nil (scan_root : String) (gid : Nat) (r : FileRecord) :
    assignFun scan_root gid [] r = r := by
  unfold assignFun
  cases r.file_hash <;> simp

lemma assignFun_setGroupFun (scan_root : String) (gid : Nat) (h : String)
    (rest : List String) (hnot : h ∉ rest) (r : FileRecord) :
    assignFun scan_root (gid + 1) rest (setGroupFun gid h scan_root r) =
      assignFun scan_root gid (h :: rest) r := by
  cases hr : r.file_hash with
  | none => simp [setGroupFun, assignFun, hr]
  | some h' =>
      by_cases hc : h' = h ∧ r.is_deleted = false ∧ r.scan_root_directory = scan_root
      · obtain ⟨he, hd, hs⟩ := hc
        subst he
        have hcond : r.file_hash = some h' ∧ r.is_deleted = false ∧
            r.scan_root_directory = scan_root := ⟨hr, hd, hs⟩
        simp only [setGroupFun, if_pos hcond]
        simp [assignFun, hr, hd, hs, hnot, List.indexOf_cons_self]
      · have hcond : ¬ (r.file_hash = some h ∧ r.is_deleted = false ∧
            r.scan_root_directory = scan_root) := by
          intro ⟨h1, h2, h3⟩
          exact hc ⟨by rw [hr] at h1; injection h1, h2, h3⟩
        simp only [setGroupFun, if_neg hcond]
        by_cases ha : r.is_deleted = false ∧ r.scan_root_directory = scan_root
        · have hne : h' ≠ h := fun he => hc ⟨he, ha⟩
          by_cases hm : h' ∈ rest
          · have : List.indexOf h' (h :: rest) = (List.indexOf h' rest) + 1 :=
              List.indexOf_cons_ne rest (Ne.symm hne)
            simp [assignFun, hr, ha.1, ha.2, hm, hne, this]
            omega
          · simp [assignFun, hr, ha.1, ha.2, hm, hne]
        · simp only [assignFun, hr]
          rw [if_neg, if_neg]
          · intro ⟨h1, h2, _⟩; exact ha ⟨h1, h2⟩
          · intro ⟨h1, h2, _⟩; exact ha ⟨h1, h2⟩

lemma assignLoop_eq (scan_root : String) :
    ∀ (hs : List String) (db : DB) (gid : Nat), hs.Nodup →
      assignLoop scan_root db gid hs =
        ⟨db.rows.map (assignFun scan_root gid hs), db.nextId⟩ := by
  intro hs
  induction hs with
  | nil =>
      intro db gid _
      have : db.rows.map (assignFun scan_root gid []) = db.rows := by
        rw [List.map_congr_left (fun r _ => assignFun_nil scan_root gid r)]
        exact List.map_id db.rows
      simp [assignLoop, this]
  | cons h rest ih =>
      intro db gid hnd
      have hnot : h ∉ rest := (List.nodup_cons.1 hnd).1
      have hrest : rest.Nodup := (List.nodup_cons.1 hnd).2
      show assignLoop scan_root
        { db with rows := db.rows.map (setGroupFun gid h scan_root) } (gid + 1) rest = _
      rw [ih _ _ hrest]
      simp only [List.map_map]
      congr 1
      exact List.map_congr_left
        (fun r _ => assignFun_setGroupFun scan_root gid h rest hnot r)

lemma resetFun_fields (scan_root : String) (r : FileRecord) :
    (resetFun scan_root r).is_deleted = r.is_deleted ∧
    (resetFun scan_root r).scan_root_directory = r.scan_root_directory ∧
    (resetFun scan_root r).file_hash = r.file_hash := by
  unfold resetFun; split <;> simp

lemma assignFun_fields (scan_root : String) (gid : Nat) (hs : List String)
    (r : FileRecord) :
    (assignFun scan_root gid hs r).is_deleted = r.is_deleted ∧
    (assignFun scan_root gid hs r).scan_root_directory = r.scan_root_directory ∧
    (assignFun scan_root gid hs r).file_hash = r.file_hash := by
  cases hh : r.file_hash with
  | none => simp [assignFun, hh]
  | some h =>
      by_cases hc : r.is_deleted = false ∧ r.scan_root_directory = scan_root ∧ h ∈ hs <;>
        simp [assignFun, hh, hc]

lemma activeHashList_map_of_fields (db : DB) (scan_root : String)
    (f : FileRecord → FileRecord) (n : Nat)
    (hf : ∀ r, (f r).is_deleted = r.is_deleted ∧
      (f r).scan_root_directory = r.scan_root_directory ∧
      (f r).file_hash = r.file_hash) :
    activeHashList ⟨db.rows.map f, n⟩ scan_root = activeHashList db scan_root := by
  unfold activeHashList
  rw [List.filterMap_map]
  congr 1
  funext r
  show (if (f r).is_deleted = false ∧ (f r).scan_root_directory = scan_root
        then (f r).file_hash else none) = _
  rw [(hf r).1, (hf r).2.1, (hf r).2.2]

lemma activeHashList_resetGroups (db : DB) (scan_root : String) :
    activeHashList (resetGroups db scan_root) scan_root = activeHashList db scan_root :=
  activeHashList_map_of_fields db scan_root _ _ (resetFun_fields scan_root)

lemma duplicateHashes_resetGroups (db : DB) (scan_root : String) :
    duplicateHashes (resetGroups db scan_root) scan_root =
      duplicateHashes db scan_root := by
  unfold duplicateHashes
  rw [activeHashList_resetGroups]

lemma duplicateHashes_nodup (db : DB) (scan_root : String) :
    (duplicateHashes db scan_root).Nodup :=
  List.Nodup.filter _ (List.nodup_dedup _)

/-- The store after `assign_duplicate_groups`: every row is reset and
then assigned through `assignFun` over the duplicate hashes of the
original store. -/
lemma assign_result (db : DB) (scan_root : String) :
    (assign_duplicate_groups db scan_root).1 =
      ⟨db.rows.map (fun r =>
          assignFun scan_root 1 (duplicateHashes db scan_root) (resetFun scan_root r)),
        db.nextId⟩ := by
  show assignLoop scan_root (resetGroups db scan_root) 1
      (duplicateHashes (resetGroups db scan_root) scan_root) = _
  rw [duplicateHashes_resetGroups,
    assignLoop_eq scan_root _ _ _ (duplicateHashes_nodup db scan_root)]
  simp [resetGroups, List.map_map, Function.comp]

lemma assign_length (db : DB) (scan_root : String) :
    (assign_duplicate_groups db scan_root).1.rows.length = db.rows.length := by
  rw [assign_result]; simp

lemma assign_getD (db : DB) (scan_root : String) (i : Nat) (hi : i < db.rows.length) :
    (assign_duplicate_groups db scan_root).1.rows.getD i defaultRecord =
      assignFun scan_root 1 (duplicateHashes db scan_root)
        (resetFun scan_root (db.rows.getD i defaultRecord)) := by
  rw [assign_result]
  exact getD_map_of_lt _ defaultRecord defaultRecord db.rows i hi

lemma activeHashList_assign (db : DB) (scan_root : String) :
    activeHashList (assign_duplicate_groups db scan_root).1 scan_root =
      activeHashList db scan_root := by
  rw [assign_result]
  exact activeHashList_map_of_fields db scan_root _ _ (fun r => by
    constructor
    · rw [(assignFun_fields _ _ _ _).1, (resetFun_fields _ _).1]
    constructor
    · rw [(assignFun_fields _ _ _ _).2.1, (resetFun_fields _ _).2.1]
    · rw [(assignFun_fields _ _ _ _).2.2, (resetFun_fields _ _).2.2])

/-- The duplicate group an active hashless row of the scan root carries
after the pass: absent. -/
lemma assign_group_value_none (scan_root : String) (hs : List String)
    (r : FileRecord) (hroot : r.scan_root_directory = scan_root)
    (hh : r.file_hash = none) :
    (assignFun scan_root 1 hs (resetFun scan_root r)).duplicate_group = none := by
  have hr0 : resetFun scan_root r = { r with duplicate_group := none } := by
    unfold resetFun; rw [if_pos hroot]
  rw [hr0]
  simp [assignFun, hh]

/-- The duplicate group an active hashed row of the scan root carries
after the pass: the position of its hash among the duplicate hashes, or
absent when the hash is not duplicated. -/
lemma assign_group_value_some (scan_root : String) (hs : List String)
    (r : FileRecord) (h : String) (hd : r.is_deleted = false)
    (hroot : r.scan_root_directory = scan_root) (hh : r.file_hash = some h) :
    (assignFun scan_root 1 hs (resetFun scan_root r)).duplicate_group =
      if h ∈ hs then some (1 + hs.indexOf h) else none := by
  have hr0 : resetFun scan_root r = { r with duplicate_group := none } := by
    unfold resetFun; rw [if_pos hroot]
  rw [hr0]
  by_cases hm : h ∈ hs <;> simp [assignFun, hh, hd, hroot, hm]

lemma mem_duplicateHashes (db : DB) (scan_root : String) (h : String) :
    h ∈ duplicateHashes db scan_root ↔
      h ∈ activeHashList db scan_root ∧
        1 < (activeHashList db scan_root).count h := by
  unfold duplicateHashes
  simp [List.mem_filter, List.mem_dedup]

/-- After `assign_duplicate_groups`, duplicate-group membership among
active rows of the scan root coincides with content-hash collision, and
an active row with an absent or unshared hash carries no group. -/
lemma grouping_ok_assign (db : DB) (scan_root : String) :
    GroupingOk (assign_duplicate_groups db scan_root).1 scan_root := by
  have hlen := assign_length db scan_root
  constructor
  · intro i hi j hj hij hai haj
    rw [hlen] at hi hj
    rw [assign_getD db scan_root i hi] at hai ⊢
    rw [assign_getD db scan_root j hj] at haj ⊢
    set dups := duplicateHashes db scan_root with hdups
    set ri := db.rows.getD i defaultRecord with hri
    set rj := db.rows.getD j defaultRecord with hrj
    have hai' : ri.is_deleted = false ∧ ri.scan_root_directory = scan_root := by
      obtain ⟨h1, h2⟩ := hai
      constructor
      · rw [(assignFun_fields _ _ _ _).1, (resetFun_fields _ _).1] at h1; exact h1
      · rw [(assignFun_fields _ _ _ _).2.1, (resetFun_fields _ _).2.1] at h2; exact h2
    have haj' : rj.is_deleted = false ∧ rj.scan_root_directory = scan_root := by
      obtain ⟨h1, h2⟩ := haj
      constructor
      · rw [(assignFun_fields _ _ _ _).1, (resetFun_fields _ _).1] at h1; exact h1
      · rw [(assignFun_fields _ _ _ _).2.1, (resetFun_fields _ _).2.1] at h2; exact h2
    have hhashi : (assignFun scan_root 1 dups (resetFun scan_root ri)).file_hash =
        ri.file_hash := by
      rw [(assignFun_fields _ _ _ _).2.2, (resetFun_fields _ _).2.2]
    have hhashj : (assignFun scan_root 1 dups (resetFun scan_root rj)).file_hash =
        rj.file_hash := by
      rw [(assignFun_fields _ _ _ _).2.2, (resetFun_fields _ _).2.2]
    constructor
    · intro ⟨hne, heq⟩
      cases hhi : ri.file_hash with
      | none =>
          rw [assign_group_value_none scan_root dups ri hai'.2 hhi] at hne
          exact absurd rfl hne
      | some h1 =>
          rw [assign_group_value_some scan_root dups ri h1 hai'.1 hai'.2 hhi] at hne heq
          by_cases hm1 : h1 ∈ dups
          · rw [if_pos hm1] at heq
            cases hhj : rj.file_hash with
            | none =>
                rw [assign_group_value_none scan_root dups rj haj'.2 hhj] at heq
                simp at heq
            | some h2 =>
                rw [assign_group_value_some scan_root dups rj h2 haj'.1 haj'.2 hhj] at heq
                by_cases hm2 : h2 ∈ dups
                · rw [if_pos hm2] at heq
                  have hidx : dups.indexOf h1 = dups.indexOf h2 := by
                    injection heq with heq'; omega
                  have he12 : h1 = h2 := (List.indexOf_inj hm1 hm2).1 hidx
                  refine ⟨?_, ?_⟩
                  · rw [hhashi, hhi]; simp
                  · rw [hhashi, hhashj, hhi, hhj, he12]
                · rw [if_neg hm2] at heq; simp at heq
          · rw [if_neg hm1] at hne; exact absurd rfl hne
    · intro ⟨hne, heq⟩
      rw [hhashi] at hne heq
      rw [hhashj] at heq
      cases hhi : ri.file_hash with
      | none => rw [hhi] at hne; exact absurd rfl hne
      | some h =>
          rw [hhi] at heq
          have hhj : rj.file_hash = some h := heq.symm
          have hmem : h ∈ activeHashList db scan_root := by
            unfold activeHashList
            refine List.mem_filterMap.2 ⟨ri, getD_mem_of_lt db.rows i hi defaultRecord, ?_⟩
            rw [if_pos ⟨hai'.1, hai'.2⟩, hhi]
          have hcnt : 1 < (activeHashList db scan_root).count h := by
            unfold activeHashList
            rcases Nat.lt_or_ge i j with hlt | hge
            · exact one_lt_count_of_two_getD _ defaultRecord h db.rows i j hlt hj
                (by rw [if_pos ⟨hai'.1, hai'.2⟩]; exact hhi)
                (by rw [if_pos ⟨haj'.1, haj'.2⟩]; exact hhj)
            · have hlt : j < i := Nat.lt_of_le_of_ne hge (fun he => hij he.symm)
              exact one_lt_count_of_two_getD _ defaultRecord h db.rows j i hlt hi
                (by rw [if_pos ⟨haj'.1, haj'.2⟩]; exact hhj)
                (by rw [if_pos ⟨hai'.1, hai'.2⟩]; exact hhi)
          have hm : h ∈ dups := (mem_duplicateHashes db scan_root h).2 ⟨hmem, hcnt⟩
          refine ⟨?_, ?_⟩
          · rw [assign_group_value_some scan_root dups ri h hai'.1 hai'.2 hhi, if_pos hm]
            simp
          · rw [assign_group_value_some scan_root dups ri h hai'.1 hai'.2 hhi,
              assign_group_value_some scan_root dups rj h haj'.1 haj'.2 hhj]
  · intro i hi hai hcnt
    rw [hlen] at hi
    rw [assign_getD db scan_root i hi] at hai hcnt ⊢
    set dups := duplicateHashes db scan_root with hdups
    set ri := db.rows.getD i defaultRecord with hri
    have hai' : ri.is_deleted = false ∧ ri.scan_root_directory = scan_root := by
      obtain ⟨h1, h2⟩ := hai
      constructor
      · rw [(assignFun_fields _ _ _ _).1, (resetFun_fields _ _).1] at h1; exact h1
      · rw [(assignFun_fields _ _ _ _).2.1, (resetFun_fields _ _).2.1] at h2; exact h2
    have hhashi : (assignFun scan_root 1 dups (resetFun scan_root ri)).file_hash =
        ri.file_hash := by
      rw [(assignFun_fields _ _ _ _).2.2, (resetFun_fields _ _).2.2]
    cases hhi : ri.file_hash with
    | none => exact assign_group_value_none scan_root dups ri hai'.2 hhi
    | some h =>
        rw [hhashi, hhi] at hcnt
        have hcnt' : (activeHashList (assign_duplicate_groups db scan_root).1 scan_root).count h ≤ 1 :=
          hcnt
        rw [activeHashList_assign] at hcnt'
        have hnm : h ∉ dups := by
          intro hm
          have := ((mem_duplicateHashes db scan_root h).1 hm).2
          omega
        rw [assign_group_value_some scan_root dups ri h hai'.1 hai'.2 hhi, if_neg hnm]


instance (r : FileRecord) (s : String) : Decidable (activeIn r s) := by
  unfold activeIn; infer_instance

instance {α : Type} [DecidableEq α] (a b : Option α) : Decidable (sharesVal a b) := by
  unfold sharesVal; infer_instance

set_option synthInstance.maxSize 2000 in
instance (db : DB) (scan_root : String) : Decidable (GroupingOk db scan_root) := by
  unfold GroupingOk; infer_instance

instance (db : DB) : Decidable (PathsUnique db) := by
  unfold PathsUnique; infer_instance

instance (db : DB) : Decidable (IdsUnique db) := by
  unfold IdsUnique; infer_instance

/-- C1: After a duplicate-regrouping pass (`assign_duplicate_groups`)
completes for a scan root, two distinct active records of that scan root
share a non-absent `duplicate_group` value exactly when they carry the
same non-absent `content_hash`, and an active record whose hash is
absent or held by no other active record of the scan root is left with
`duplicate_group` absent. -/
theorem c1_grouping_after_regroup (db : DB) (scan_root : String) :
    GroupingOk (assign_duplicate_groups db scan_root).1 scan_root :=
  grouping_ok_assign db scan_root

/-- Unfolding of `compute_hashes_for_candidates`. -/
lemma compute_hashes_eq (disk : String → Option String) (minSize maxGroup : Nat)
    (db : DB) (scan_root now : String) :
    compute_hashes_for_candidates disk minSize maxGroup db scan_root now =
      if get_size_candidates db minSize maxGroup scan_root = [] then (db, 0, 0)
      else ((assign_duplicate_groups (hashAllCandidates disk now db
          (get_size_candidates db minSize maxGroup scan_root)).1 scan_root).1,
        (hashAllCandidates disk now db
          (get_size_candidates db minSize maxGroup scan_root)).2,
        (assign_duplicate_groups (hashAllCandidates disk now db
          (get_size_candidates db minSize maxGroup scan_root)).1 scan_root).2) := rfl

/-- A store holding one active hashed row of scan root `r` that still
carries a stale duplicate group from an earlier pass (its former
duplicate partner is gone). -/
def staleRecord : FileRecord :=
  { defaultRecord with
    id := 1, full_path := "a", scan_root_directory := "r",
    file_size_bytes := 1000, file_hash := some "h", duplicate_group := some 1 }

/-- A store where duplicate detection finds no candidate size group. -/
def staleDB : DB := ⟨[staleRecord], 2⟩

/-- C2 counterexample: on a store whose only size group has a single
member, `compute_hashes_for_candidates` returns the store unchanged —
the reset-and-regroup step is skipped — so the surviving record keeps a
stale `duplicate_group` and membership does not reflect the current
active-file population; running `assign_duplicate_groups` directly would
have changed the store. -/
theorem c2_counterexample :
    (compute_hashes_for_candidates (fun _ => none) MIN_FILE_SIZE_FOR_HASH
        MAX_SAME_SIZE_FILES staleDB "r" "t").1 = staleDB ∧
    ¬ GroupingOk (compute_hashes_for_candidates (fun _ => none) MIN_FILE_SIZE_FOR_HASH
        MAX_SAME_SIZE_FILES staleDB "r" "t").1 "r" ∧
    (assign_duplicate_groups staleDB "r").1 ≠ staleDB :=
  ⟨by decide, by decide, by decide⟩

/-- C2 (amended): whenever candidate selection returns at least one size
group, the duplicate-detection pass runs the reset-and-regroup step
after its hashing sub-phase — even when zero new hashes were computed —
so `duplicate_group` membership reflects the current active-file
population on return; when candidate selection returns no size groups
the pass returns `(0, 0)` immediately and leaves the store unchanged. -/
theorem c2_regroup_after_hashing (disk : String → Option String)
    (minSize maxGroup : Nat) (db : DB) (scan_root now : String) :
    (get_size_candidates db minSize maxGroup scan_root ≠ [] →
      GroupingOk (compute_hashes_for_candidates disk minSize maxGroup db scan_root now).1
        scan_root) ∧
    (get_size_candidates db minSize maxGroup scan_root = [] →
      compute_hashes_for_candidates disk minSize maxGroup db scan_root now = (db, 0, 0)) := by
  constructor
  · intro hne
    rw [compute_hashes_eq, if_neg hne]
    exact grouping_ok_assign _ scan_root
  · intro he
    rw [compute_hashes_eq, if_pos he]

/-- Concrete rows for witnesses: two active unhashed rows of equal size
in scan root `r`. -/
def wrec1 : FileRecord :=
  { defaultRecord with
    id := 1, full_path := "a", scan_root_directory := "r", file_size_bytes := 5 }

def wrec2 : FileRecord :=
  { defaultRecord with
    id := 2, full_path := "b", scan_root_directory := "r", file_size_bytes := 5 }

def wdb : DB := ⟨[wrec1, wrec2], 3⟩

theorem c2_witness :
    get_size_candidates wdb 1 100 "r" ≠ [] ∧
    GroupingOk (compute_hashes_for_candidates (fun _ => some "h") 1 100 wdb "r" "t").1 "r" :=
  ⟨by decide, (c2_regroup_after_hashing (fun _ => some "h") 1 100 wdb "r" "t").1 (by decide)⟩

/-! Frame properties of the reconciliation engine: row positions are
stable, and no reconciliation operation writes `id`, `full_path`,
`file_hash` or `duplicate_group` on an existing row. -/

/-- `b` extends `a` without touching identity, hash or group of the rows
already present in `a` (positions preserved). -/
def FrameOk (a b : DB) : Prop :=
  a.rows.length ≤ b.rows.length ∧
  ∀ i, i < a.rows.length →
    (b.rows.getD i defaultRecord).id = (a.rows.getD i defaultRecord).id ∧
    (b.rows.getD i defaultRecord).full_path = (a.rows.getD i defaultRecord).full_path ∧
    (b.rows.getD i defaultRecord).file_hash = (a.rows.getD i defaultRecord).file_hash ∧
    (b.rows.getD i defaultRecord).duplicate_group =
      (a.rows.getD i defaultRecord).duplicate_group

lemma frameOk_refl (a : DB) : FrameOk a a :=
  ⟨Nat.le_refl _, fun _ _ => ⟨rfl, rfl, rfl, rfl⟩⟩

lemma frameOk_trans {a b c : DB} (h1 : FrameOk a b) (h2 : FrameOk b c) : FrameOk a c := by
  refine ⟨Nat.le_trans h1.1 h2.1, fun i hi => ?_⟩
  have hib : i < b.rows.length := Nat.lt_of_lt_of_le hi h1.1
  obtain ⟨e1, e2, e3, e4⟩ := h1.2 i hi
  obtain ⟨f1, f2, f3, f4⟩ := h2.2 i hib
  exact ⟨f1.trans e1, f2.trans e2, f3.trans e3, f4.trans e4⟩

lemma getD_append_left {α : Type} (d : α) :
    ∀ (l t : List α) (i : Nat), i < l.length → (l ++ t).getD i d = l.getD i d
  | a :: l, t, 0, _ => rfl
  | a :: l, t, i + 1, h =>
      getD_append_left d l t i (Nat.lt_of_succ_lt_succ (by simpa using h))
  | [], t, i, h => absurd h (by simp)

lemma frameOk_map (db : DB) (f : FileRecord → FileRecord) (n : Nat)
    (hf : ∀ r, (f r).id = r.id ∧ (f r).full_path = r.full_path ∧
      (f r).file_hash = r.file_hash ∧ (f r).duplicate_group = r.duplicate_group) :
    FrameOk db ⟨db.rows.map f, n⟩ := by
  refine ⟨by simp, fun i hi => ?_⟩
  show ((db.rows.map f).getD i defaultRecord).id = (db.rows.getD i defaultRecord).id ∧
    ((db.rows.map f).getD i defaultRecord).full_path =
      (db.rows.getD i defaultRecord).full_path ∧
    ((db.rows.map f).getD i defaultRecord).file_hash =
      (db.rows.getD i defaultRecord).file_hash ∧
    ((db.rows.map f).getD i defaultRecord).duplicate_group =
      (db.rows.getD i defaultRecord).duplicate_group
  rw [getD_map_of_lt f defaultRecord defaultRecord db.rows i hi]
  exact hf _

lemma updatedRecord_frame (m : Metadata) (scan_root now : String) (r : FileRecord) :
    (updatedRecord m scan_root now r).id = r.id ∧
    (updatedRecord m scan_root now r).full_path = r.full_path ∧
    (updatedRecord m scan_root now r).file_hash = r.file_hash ∧
    (updatedRecord m scan_root now r).duplicate_group = r.duplicate_group := by
  simp [updatedRecord]

lemma sqlUpdateFile_frame (db : DB) (m : Metadata) (scan_root now : String) :
    FrameOk db (sqlUpdateFile db m scan_root now) := by
  apply frameOk_map
  intro r
  by_cases hp : r.full_path = m.full_path
  · simp [hp, updatedRecord]
  · simp [hp]

lemma softDeletePath_frame (db : DB) (p now : String) :
    FrameOk db (softDeletePath db p now) := by
  apply frameOk_map
  intro r
  by_cases hp : r.full_path = p ∧ r.is_deleted = false
  · simp [if_pos hp]
  · simp [if_neg hp]

lemma sqlInsertFile_frame (db db' : DB) (m : Metadata) (scan_root now : String)
    (h : sqlInsertFile db m scan_root now = some db') : FrameOk db db' := by
  unfold sqlInsertFile at h
  by_cases hc : db.rows.any (fun r => r.full_path == m.full_path)
  · rw [if_pos hc] at h; cases h
  · rw [if_neg hc] at h
    injection h with h
    subst h
    refine ⟨by simp, fun i hi => ?_⟩
    show (((db.rows ++ [insertedRecord db.nextId m scan_root now]).getD i
        defaultRecord)).id = (db.rows.getD i defaultRecord).id ∧
      ((db.rows ++ [insertedRecord db.nextId m scan_root now]).getD i
        defaultRecord).full_path = (db.rows.getD i defaultRecord).full_path ∧
      ((db.rows ++ [insertedRecord db.nextId m scan_root now]).getD i
        defaultRecord).file_hash = (db.rows.getD i defaultRecord).file_hash ∧
      ((db.rows ++ [insertedRecord db.nextId m scan_root now]).getD i
        defaultRecord).duplicate_group = (db.rows.getD i defaultRecord).duplicate_group
    rw [getD_append_left defaultRecord db.rows _ i hi]
    exact ⟨rfl, rfl, rfl, rfl⟩

lemma applyOps_frameOk (scan_root now : String) :
    ∀ (ops : List SyncOp) (db : DB) (stats : Stats) (db' : DB) (stats' : Stats),
      applyOps scan_root now db stats ops = some (db', stats') → FrameOk db db' := by
  intro ops
  induction ops with
  | nil =>
      intro db stats db' stats' h
      simp only [applyOps] at h
      injection h with h
      injection h with h1 h2
      exact h1 ▸ frameOk_refl db
  | cons op rest ih =>
      intro db stats db' stats' h
      cases op with
      | ins m =>
          simp only [applyOps] at h
          cases hins : sqlInsertFile db m scan_root now with
          | none => rw [hins] at h; cases h
          | some db1 =>
              rw [hins] at h
              exact frameOk_trans (sqlInsertFile_frame db db1 m scan_root now hins)
                (ih _ _ _ _ h)
      | upd m wasDel =>
          simp only [applyOps] at h
          exact frameOk_trans (sqlUpdateFile_frame db m scan_root now) (ih _ _ _ _ h)

lemma markMissingFold_frameOk (existing : List (String × Bool)) (now : String) :
    ∀ (ps : List String) (db : DB) (stats : Stats),
      FrameOk db (markMissingFold existing now (db, stats) ps).1 := by
  intro ps
  induction ps with
  | nil => intro db stats; exact frameOk_refl _
  | cons p rest ih =>
      intro db stats
      show FrameOk db (markMissingFold existing now _ (p :: rest)).1
      unfold markMissingFold
      by_cases hc : existing.lookup p = some false
      · rw [if_pos hc]
        exact frameOk_trans (softDeletePath_frame db p now) (ih _ _)
      · rw [if_neg hc]
        exact ih _ _

/-- Unfolding of `bulk_sync_database`. -/
lemma bulk_sync_eq (all_files : List Metadata) (scan_root now : String) (db : DB) :
    bulk_sync_database all_files scan_root now db =
      match applyOps scan_root now db initStats
          (syncOps all_files (existingForRoot db scan_root)) with
      | none => none
      | some (db1, stats1) =>
          some (markMissingFold (existingForRoot db scan_root) now (db1, stats1)
            (missedPaths (existingForRoot db scan_root)
              (all_files.map (fun m => m.full_path)))) := rfl

/-- No reconciliation run moves, re-identifies, re-hashes or regroups an
existing row: the store after `bulk_sync_database` (committed or rolled
back) extends the prior store with `id`, `full_path`, `file_hash` and
`duplicate_group` unchanged at every prior position. -/
lemma syncState_frameOk (all_files : List Metadata) (scan_root now : String) (db : DB) :
    FrameOk db (syncState all_files scan_root now db) := by
  cases hb : bulk_sync_database all_files scan_root now db with
  | none =>
      have hs : syncState all_files scan_root now db = db := by
        unfold syncState; rw [hb]
      rw [hs]
      exact frameOk_refl _
  | some out =>
      obtain ⟨dbf, statsf⟩ := out
      have hs : syncState all_files scan_root now db = dbf := by
        unfold syncState; rw [hb]
      rw [hs]
      rw [bulk_sync_eq] at hb
      cases ha : applyOps scan_root now db initStats
          (syncOps all_files (existingForRoot db scan_root)) with
      | none => rw [ha] at hb; cases hb
      | some p =>
          obtain ⟨db1, stats1⟩ := p
          rw [ha] at hb
          injection hb with hb
          have h1 := applyOps_frameOk scan_root now _ db initStats db1 stats1 ha
          have h2 := markMissingFold_frameOk (existingForRoot db scan_root) now
            (missedPaths (existingForRoot db scan_root)
              (all_files.map (fun m => m.full_path))) db1 stats1
          have h3 : (markMissingFold (existingForRoot db scan_root) now (db1, stats1)
              (missedPaths (existingForRoot db scan_root)
                (all_files.map (fun m => m.full_path)))).1 = dbf := by rw [hb]
          rw [← h3]
          exact frameOk_trans h1 h2

/-- C5: an ordinary reconciliation cycle (any combination of insert,
update, restore and soft-delete transitions applied by
`bulk_sync_database`) keeps every pre-existing row at its position with
its `id`, `full_path`, `file_hash` and `duplicate_group` unchanged: in
particular a set `content_hash` keeps its prior value and
`duplicate_group` is never written by reconciliation. -/
theorem c5_hash_stability (all_files : List Metadata) (scan_root now : String) (db : DB) :
    FrameOk db (syncState all_files scan_root now db) :=
  syncState_frameOk all_files scan_root now db

/-! Preservation of the `full_path UNIQUE` constraint. -/

lemma pathsUnique_of_map (db : DB) (f : FileRecord → FileRecord) (n : Nat)
    (hf : ∀ r, (f r).full_path = r.full_path) (h : PathsUnique db) :
    PathsUnique ⟨db.rows.map f, n⟩ := by
  unfold PathsUnique at h ⊢
  show ((db.rows.map f).map (fun r => r.full_path)).Nodup
  rw [List.map_map]
  have : db.rows.map ((fun r => r.full_path) ∘ f) = db.rows.map (fun r => r.full_path) :=
    List.map_congr_left (fun r _ => hf r)
  rw [this]
  exact h

lemma pathsUnique_update (db : DB) (m : Metadata) (scan_root now : String)
    (h : PathsUnique db) : PathsUnique (sqlUpdateFile db m scan_root now) := by
  have := pathsUnique_of_map db
    (fun r => if r.full_path = m.full_path then updatedRecord m scan_root now r else r)
    db.nextId (fun r => by by_cases hp : r.full_path = m.full_path <;>
      simp [hp, updatedRecord]) h
  exact this

lemma pathsUnique_softDelete (db : DB) (p now : String) (h : PathsUnique db) :
    PathsUnique (softDeletePath db p now) := by
  have := pathsUnique_of_map db
    (fun r => if r.full_path = p ∧ r.is_deleted = false
      then { r with is_deleted := true, deleted_at := some now } else r)
    db.nextId (fun r => by
      by_cases hp : r.full_path = p ∧ r.is_deleted = false <;> simp [hp]) h
  exact this

lemma pathsUnique_insert (db db' : DB) (m : Metadata) (scan_root now : String)
    (hins : sqlInsertFile db m scan_root now = some db') (h : PathsUnique db) :
    PathsUnique db' := by
  unfold sqlInsertFile at hins
  by_cases hc : db.rows.any (fun r => r.full_path == m.full_path)
  · rw [if_pos hc] at hins; cases hins
  · rw [if_neg hc] at hins
    injection hins with hins
    subst hins
    unfold PathsUnique at h ⊢
    show ((db.rows ++ [insertedRecord db.nextId m scan_root now]).map
      (fun r => r.full_path)).Nodup
    rw [List.map_append]
    rw [List.nodup_append]
    refine ⟨h, by simp, ?_⟩
    intro x hx hx'
    simp only [List.map_cons, List.map_nil, List.mem_singleton] at hx'
    subst hx'
    apply hc
    rw [List.any_eq_true]
    obtain ⟨r, hr, hre⟩ := List.mem_map.1 hx
    exact ⟨r, hr, by rw [hre]; exact beq_self_eq_true _⟩

lemma applyOps_pathsUnique (scan_root now : String) :
    ∀ (ops : List SyncOp) (db : DB) (stats : Stats) (db' : DB) (stats' : Stats),
      applyOps scan_root now db stats ops = some (db', stats') →
      PathsUnique db → PathsUnique db' := by
  intro ops
  induction ops with
  | nil =>
      intro db stats db' stats' h hu
      simp only [applyOps] at h
      injection h with h
      injection h with h1 h2
      exact h1 ▸ hu
  | cons op rest ih =>
      intro db stats db' stats' h hu
      cases op with
      | ins m =>
          simp only [applyOps] at h
          cases hins : sqlInsertFile db m scan_root now with
          | none => rw [hins] at h; cases h
          | some db1 =>
              rw [hins] at h
              exact ih _ _ _ _ h (pathsUnique_insert db db1 m scan_root now hins hu)
      | upd m wasDel =>
          simp only [applyOps] at h
          exact ih _ _ _ _ h (pathsUnique_update db m scan_root now hu)

lemma markMissingFold_pathsUnique (existing : List (String × Bool)) (now : String) :
    ∀ (ps : List String) (db : DB) (stats : Stats),
      PathsUnique db → PathsUnique (markMissingFold existing now (db, stats) ps).1 := by
  intro ps
  induction ps with
  | nil => intro db stats hu; exact hu
  | cons p rest ih =>
      intro db stats hu
      unfold markMissingFold
      by_cases hc : existing.lookup p = some false
      · rw [if_pos hc]
        exact ih _ _ (pathsUnique_softDelete db p now hu)
      · rw [if_neg hc]
        exact ih _ _ hu

lemma syncState_pathsUnique (all_files : List Metadata) (scan_root now : String)
    (db : DB) (h : PathsUnique db) :
    PathsUnique (syncState all_files scan_root now db) := by
  cases hb : bulk_sync_database all_files scan_root now db with
  | none =>
      have hs : syncState all_files scan_root now db = db := by
        unfold syncState; rw [hb]
      rw [hs]; exact h
  | some out =>
      obtain ⟨dbf, statsf⟩ := out
      have hs : syncState all_files scan_root now db = dbf := by
        unfold syncState; rw [hb]
      rw [hs]
      rw [bulk_sync_eq] at hb
      cases ha : applyOps scan_root now db initStats
          (syncOps all_files (existingForRoot db scan_root)) with
      | none => rw [ha] at hb; cases hb
      | some p =>
          obtain ⟨db1, stats1⟩ := p
          rw [ha] at hb
          injection hb with hb
          have h1 := applyOps_pathsUnique scan_root now _ db initStats db1 stats1 ha h
          have h2 := markMissingFold_pathsUnique (existingForRoot db scan_root) now
            (missedPaths (existingForRoot db scan_root)
              (all_files.map (fun m => m.full_path))) db1 stats1 h1
          have h3 : (markMissingFold (existingForRoot db scan_root) now (db1, stats1)
              (missedPaths (existingForRoot db scan_root)
                (all_files.map (fun m => m.full_path)))).1 = dbf := by rw [hb]
          rw [← h3]
          exact h2

/-- C4: `(full_path, scan_root)` stays a unique identifier across any
reconciliation run (committed or rolled back): when the store satisfies
the schema's `full_path UNIQUE` constraint before the run, it satisfies
it after, and in particular no two distinct rows share the same
`(full_path, scan_root_directory)` pair — re-observing a recorded path
never creates a second row. -/
theorem c4_identity_unique (all_files : List Metadata) (scan_root now : String)
    (db : DB) (h : PathsUnique db) :
    PathsUnique (syncState all_files scan_root now db) ∧
    ((syncState all_files scan_root now db).rows.map
      (fun r => (r.full_path, r.scan_root_directory))).Nodup := by
  have h1 := syncState_pathsUnique all_files scan_root now db h
  refine ⟨h1, ?_⟩
  apply List.Nodup.of_map Prod.fst
  have : ((syncState all_files scan_root now db).rows.map
      (fun r => (r.full_path, r.scan_root_directory))).map Prod.fst =
      (syncState all_files scan_root now db).rows.map (fun r => r.full_path) := by
    rw [List.map_map]; rfl
  rw [this]
  exact h1

/-- Concrete metadata records for witnesses. -/
def mW : Metadata := ⟨"a.txt", ".txt", 5, "5 B", "d", "a", none, none, none⟩

def mW2 : Metadata := ⟨"c.txt", ".txt", 7, "7 B", "d", "c", none, none, none⟩

theorem c4_witness :
    PathsUnique wdb ∧
    (PathsUnique (syncState [mW, mW2] "r" "t" wdb) ∧
      ((syncState [mW, mW2] "r" "t" wdb).rows.map
        (fun r => (r.full_path, r.scan_root_directory))).Nodup) :=
  ⟨by decide, c4_identity_unique [mW, mW2] "r" "t" wdb (by decide)⟩

/-! Classification and statistics of a reconciliation run. -/

/-- The observed path an operation refers to. -/
def opPath : SyncOp → String
  | .ins m => m.full_path
  | .upd m _ => m.full_path

def isInsOp : SyncOp → Bool
  | .ins _ => true
  | .upd _ _ => false

def isRestoreOp : SyncOp → Bool
  | .upd _ true => true
  | _ => false

def isUpdateOp : SyncOp → Bool
  | .upd _ false => true
  | _ => false

lemma applyOps_stats (scan_root now : String) :
    ∀ (ops : List SyncOp) (db : DB) (stats : Stats) (db' : DB) (stats' : Stats),
      applyOps scan_root now db stats ops = some (db', stats') →
      stats'.inserted = stats.inserted + ops.countP isInsOp ∧
      stats'.updated = stats.updated + ops.countP isUpdateOp ∧
      stats'.restored = stats.restored + ops.countP isRestoreOp ∧
      stats'.deleted = stats.deleted := by
  intro ops
  induction ops with
  | nil =>
      intro db stats db' stats' h
      simp only [applyOps] at h
      injection h with h
      injection h with h1 h2
      subst h2
      simp [List.countP_nil]
  | cons op rest ih =>
      intro db stats db' stats' h
      cases op with
      | ins m =>
          simp only [applyOps] at h
          cases hins : sqlInsertFile db m scan_root now with
          | none => rw [hins] at h; cases h
          | some db1 =>
              rw [hins] at h
              obtain ⟨e1, e2, e3, e4⟩ := ih _ _ _ _ h
              refine ⟨?_, ?_, ?_, ?_⟩ <;>
                simp [e1, e2, e3, e4, List.countP_cons, isInsOp, isUpdateOp, isRestoreOp] <;>
                omega
      | upd m wasDel =>
          cases wasDel with
          | true =>
              simp only [applyOps] at h
              obtain ⟨e1, e2, e3, e4⟩ := ih _ _ _ _ h
              refine ⟨?_, ?_, ?_, ?_⟩ <;>
                simp [e1, e2, e3, e4, List.countP_cons, isInsOp, isUpdateOp, isRestoreOp] <;>
                omega
          | false =>
              simp only [applyOps] at h
              obtain ⟨e1, e2, e3, e4⟩ := ih _ _ _ _ h
              refine ⟨?_, ?_, ?_, ?_⟩ <;>
                simp [e1, e2, e3, e4, List.countP_cons, isInsOp, isUpdateOp, isRestoreOp] <;>
                omega

lemma markMissingFold_stats (existing : List (String × Bool)) (now : String) :
    ∀ (ps : List String) (db : DB) (stats : Stats),
      (markMissingFold existing now (db, stats) ps).2.inserted = stats.inserted ∧
      (markMissingFold existing now (db, stats) ps).2.updated = stats.updated ∧
      (markMissingFold existing now (db, stats) ps).2.restored = stats.restored ∧
      (markMissingFold existing now (db, stats) ps).2.deleted =
        stats.deleted + ps.countP (fun p => decide (existing.lookup p = some false)) := by
  intro ps
  induction ps with
  | nil => intro db stats; simp [markMissingFold]
  | cons p rest ih =>
      intro db stats
      unfold markMissingFold
      by_cases hc : existing.lookup p = some false
      · rw [if_pos hc]
        obtain ⟨e1, e2, e3, e4⟩ := ih (softDeletePath db p now)
          { stats with deleted := stats.deleted + 1 }
        refine ⟨e1, e2, e3, ?_⟩
        rw [e4]
        simp [List.countP_cons, hc]
        omega
      · rw [if_neg hc]
        obtain ⟨e1, e2, e3, e4⟩ := ih db stats
        refine ⟨e1, e2, e3, ?_⟩
        rw [e4]
        simp [List.countP_cons, hc]

/-! Lookup lemmas for the `existing` snapshot. -/

lemma lookup_mem {β : Type} :
    ∀ (l : List (String × β)) (k : String) (v : β),
      l.lookup k = some v → (k, v) ∈ l := by
  intro l
  induction l with
  | nil => intro k v h; simp [List.lookup] at h
  | cons e t ih =>
      intro k v h
      obtain ⟨a, b⟩ := e
      by_cases hk : k == a
      · simp only [List.lookup, hk] at h
        injection h with h
        subst h
        have : k = a := by simpa using hk
        subst this
        exact List.mem_cons_self _ _
      · rw [Bool.not_eq_true] at hk
        simp only [List.lookup, hk] at h
        exact List.mem_cons_of_mem _ (ih k v h)

lemma lookup_all_val {β : Type} :
    ∀ (l : List (String × β)) (k : String) (v0 : β),
      (∃ e ∈ l, e.1 = k) → (∀ e ∈ l, e.1 = k → e.2 = v0) →
      l.lookup k = some v0 := by
  intro l
  induction l with
  | nil => intro k v0 hex _; simp at hex
  | cons e t ih =>
      intro k v0 hex hall
      obtain ⟨a, b⟩ := e
      by_cases hk : k = a
      · subst hk
        have : b = v0 := hall (k, b) (List.mem_cons_self _ _) rfl
        subst this
        simp [List.lookup]
      · have hk' : (k == a) = false := by
          rw [beq_eq_false_iff_ne]; exact hk
        simp only [List.lookup, hk']
        apply ih
        · obtain ⟨e, he, hek⟩ := hex
          cases List.mem_cons.1 he with
          | inl h0 =>
              subst h0
              exact absurd hek (by simpa using fun he => hk he.symm)
          | inr h0 => exact ⟨e, h0, hek⟩
        · intro e he hek
          exact hall e (List.mem_cons_of_mem _ he) hek

lemma mem_existingForRoot (db : DB) (scan_root : String) (e : String × Bool) :
    e ∈ existingForRoot db scan_root ↔
      ∃ r ∈ db.rows, r.scan_root_directory = scan_root ∧
        e = (r.full_path, r.is_deleted) := by
  unfold existingForRoot
  constructor
  · intro h
    obtain ⟨r, hr, hre⟩ := List.mem_map.1 h
    have hroot : r.scan_root_directory = scan_root := by
      have := (List.mem_filter.1 hr).2
      simpa using this
    exact ⟨r, (List.mem_filter.1 hr).1, hroot, hre.symm⟩
  · intro ⟨r, hr, hroot, hre⟩
    subst hre
    exact List.mem_map.2 ⟨r, List.mem_filter.2 ⟨hr, by simpa using hroot⟩, rfl⟩

/-- Under the `full_path UNIQUE` constraint, the snapshot lookup of the
path of a row of the scan root returns exactly that row's deletion
flag. -/
lemma lookup_existing_unique (db : DB) (scan_root : String) (h : PathsUnique db) :
    ∀ r ∈ db.rows, r.scan_root_directory = scan_root →
      (existingForRoot db scan_root).lookup r.full_path = some r.is_deleted := by
  intro r hr hroot
  apply lookup_all_val
  · exact ⟨(r.full_path, r.is_deleted),
      (mem_existingForRoot db scan_root _).2 ⟨r, hr, hroot, rfl⟩, rfl⟩
  · intro e he hek
    obtain ⟨r', hr', hroot', hre'⟩ := (mem_existingForRoot db scan_root e).1 he
    subst hre'
    have hpp : r'.full_path = r.full_path := hek
    have : r' = r := by
      unfold PathsUnique at h
      exact List.inj_on_of_nodup_map h hr' hr hpp
    rw [this]

/-! Every observed path ends the run active, in the scan root, with
`deleted_at` cleared. -/

/-- All rows holding the given path are active, belong to the scan root
and have `deleted_at` absent — and at least one such row exists. -/
def AllFresh (db : DB) (p scan_root : String) : Prop :=
  (∃ r ∈ db.rows, r.full_path = p) ∧
  ∀ r ∈ db.rows, r.full_path = p →
    r.is_deleted = false ∧ r.scan_root_directory = scan_root ∧ r.deleted_at = none

lemma pathPresent_update (db : DB) (m : Metadata) (scan_root now p : String)
    (h : ∃ r ∈ db.rows, r.full_path = p) :
    ∃ r ∈ (sqlUpdateFile db m scan_root now).rows, r.full_path = p := by
  obtain ⟨r, hr, hp⟩ := h
  refine ⟨if r.full_path = m.full_path then updatedRecord m scan_root now r else r,
    List.mem_map_of_mem _ hr, ?_⟩
  by_cases hc : r.full_path = m.full_path
  · rw [if_pos hc]
    show (updatedRecord m scan_root now r).full_path = p
    rw [(updatedRecord_frame m scan_root now r).2.1]
    exact hp
  · rw [if_neg hc]
    exact hp

lemma pathPresent_insert (db db' : DB) (m : Metadata) (scan_root now p : String)
    (hins : sqlInsertFile db m scan_root now = some db')
    (h : ∃ r ∈ db.rows, r.full_path = p) :
    ∃ r ∈ db'.rows, r.full_path = p := by
  unfold sqlInsertFile at hins
  by_cases hc : db.rows.any (fun r => r.full_path == m.full_path)
  · rw [if_pos hc] at hins; cases hins
  · rw [if_neg hc] at hins
    injection hins with hins
    subst hins
    obtain ⟨r, hr, hp⟩ := h
    exact ⟨r, List.mem_append_left _ hr, hp⟩

lemma allFresh_update_self (db : DB) (m : Metadata) (scan_root now : String)
    (hex : ∃ r ∈ db.rows, r.full_path = m.full_path) :
    AllFresh (sqlUpdateFile db m scan_root now) m.full_path scan_root := by
  constructor
  · exact pathPresent_update db m scan_root now m.full_path hex
  · intro r' hr' hp'
    obtain ⟨r, hr, hre⟩ := List.mem_map.1 hr'
    subst hre
    by_cases hc : r.full_path = m.full_path
    · simp [hc, updatedRecord]
    · rw [if_neg hc] at hp'
      exact absurd hp' hc

lemma allFresh_update_preserve (db : DB) (m : Metadata) (scan_root now q : String)
    (h : AllFresh db q scan_root) :
    AllFresh (sqlUpdateFile db m scan_root now) q scan_root := by
  by_cases hq : q = m.full_path
  · subst hq
    exact allFresh_update_self db m scan_root now h.1
  · constructor
    · exact pathPresent_update db m scan_root now q h.1
    · intro r' hr' hp'
      obtain ⟨r, hr, hre⟩ := List.mem_map.1 hr'
      subst hre
      by_cases hc : r.full_path = m.full_path
      · rw [if_pos hc] at hp'
        have hrq : r.full_path = q := by
          rw [← (updatedRecord_frame m scan_root now r).2.1]
          exact hp'
        have h3 : q = m.full_path := by rw [← hrq]; exact hc
        exact absurd h3 hq
      · rw [if_neg hc] at hp' ⊢
        exact h.2 r hr hp'

lemma allFresh_insert_self (db db' : DB) (m : Metadata) (scan_root now : String)
    (hins : sqlInsertFile db m scan_root now = some db') :
    AllFresh db' m.full_path scan_root := by
  unfold sqlInsertFile at hins
  by_cases hc : db.rows.any (fun r => r.full_path == m.full_path)
  · rw [if_pos hc] at hins; cases hins
  · rw [if_neg hc] at hins
    injection hins with hins
    subst hins
    constructor
    · exact ⟨insertedRecord db.nextId m scan_root now,
        List.mem_append_right _ (List.mem_singleton.2 rfl), rfl⟩
    · intro r hr hp
      cases List.mem_append.1 hr with
      | inl h0 =>
          exfalso
          apply hc
          rw [List.any_eq_true]
          exact ⟨r, h0, by rw [hp]; exact beq_self_eq_true _⟩
      | inr h0 =>
          rw [List.mem_singleton.1 h0]
          exact ⟨rfl, rfl, rfl⟩

lemma allFresh_insert_preserve (db db' : DB) (m : Metadata) (scan_root now q : String)
    (hins : sqlInsertFile db m scan_root now = some db')
    (h : AllFresh db q scan_root) : AllFresh db' q scan_root := by
  unfold sqlInsertFile at hins
  by_cases hc : db.rows.any (fun r => r.full_path == m.full_path)
  · rw [if_pos hc] at hins; cases hins
  · rw [if_neg hc] at hins
    injection hins with hins
    subst hins
    constructor
    · obtain ⟨r, hr, hp⟩ := h.1
      exact ⟨r, List.mem_append_left _ hr, hp⟩
    · intro r hr hp
      cases List.mem_append.1 hr with
      | inl h0 => exact h.2 r h0 hp
      | inr h0 =>
          exfalso
          rw [List.mem_singleton.1 h0] at hp
          obtain ⟨r0, hr0, hp0⟩ := h.1
          apply hc
          rw [List.any_eq_true]
          refine ⟨r0, hr0, ?_⟩
          have : r0.full_path = m.full_path := by
            rw [hp0]
            exact hp.symm
          rw [this]
          exact beq_self_eq_true _

lemma allFresh_softDelete_preserve (db : DB) (q now p scan_root : String)
    (hne : q ≠ p) (h : AllFresh db p scan_root) :
    AllFresh (softDeletePath db q now) p scan_root := by
  constructor
  · obtain ⟨r, hr, hp⟩ := h.1
    refine ⟨if r.full_path = q ∧ r.is_deleted = false
        then { r with is_deleted := true, deleted_at := some now } else r,
      List.mem_map_of_mem _ hr, ?_⟩
    by_cases hc : r.full_path = q ∧ r.is_deleted = false
    · rw [if_pos hc]
      exact hp
    · rw [if_neg hc]
      exact hp
  · intro r' hr' hp'
    obtain ⟨r, hr, hre⟩ := List.mem_map.1 hr'
    subst hre
    by_cases hc : r.full_path = q ∧ r.is_deleted = false
    · exfalso
      rw [if_pos hc] at hp'
      have hrp : r.full_path = p := hp'
      apply hne
      rw [← hc.1]
      exact hrp
    · rw [if_neg hc] at hp' ⊢
      exact h.2 r hr hp'

lemma applyOps_allFresh_preserve (scan_root now : String) :
    ∀ (ops : List SyncOp) (db : DB) (stats : Stats) (db' : DB) (stats' : Stats)
      (q : String),
      applyOps scan_root now db stats ops = some (db', stats') →
      AllFresh db q scan_root → AllFresh db' q scan_root := by
  intro ops
  induction ops with
  | nil =>
      intro db stats db' stats' q h hf
      simp only [applyOps] at h
      injection h with h
      injection h with h1 h2
      exact h1 ▸ hf
  | cons op rest ih =>
      intro db stats db' stats' q h hf
      cases op with
      | ins m =>
          simp only [applyOps] at h
          cases hins : sqlInsertFile db m scan_root now with
          | none => rw [hins] at h; cases h
          | some db1 =>
              rw [hins] at h
              exact ih _ _ _ _ q h
                (allFresh_insert_preserve db db1 m scan_root now q hins hf)
      | upd m wasDel =>
          simp only [applyOps] at h
          exact ih _ _ _ _ q h (allFresh_update_preserve db m scan_root now q hf)

lemma applyOps_pathPresent (scan_root now : String) :
    ∀ (ops : List SyncOp) (db : DB) (stats : Stats) (db' : DB) (stats' : Stats)
      (p : String),
      applyOps scan_root now db stats ops = some (db', stats') →
      (∃ r ∈ db.rows, r.full_path = p) → ∃ r ∈ db'.rows, r.full_path = p := by
  intro ops
  induction ops with
  | nil =>
      intro db stats db' stats' p h hp
      simp only [applyOps] at h
      injection h with h
      injection h with h1 h2
      exact h1 ▸ hp
  | cons op rest ih =>
      intro db stats db' stats' p h hp
      cases op with
      | ins m =>
          simp only [applyOps] at h
          cases hins : sqlInsertFile db m scan_root now with
          | none => rw [hins] at h; cases h
          | some db1 =>
              rw [hins] at h
              exact ih _ _ _ _ p h
                (pathPresent_insert db db1 m scan_root now p hins hp)
      | upd m wasDel =>
          simp only [applyOps] at h
          exact ih _ _ _ _ p h (pathPresent_update db m scan_root now p hp)

lemma applyOps_allFresh (scan_root now : String) :
    ∀ (ops : List SyncOp) (db : DB) (stats : Stats) (db' : DB) (stats' : Stats),
      applyOps scan_root now db stats ops = some (db', stats') →
      (∀ m w, SyncOp.upd m w ∈ ops → ∃ r ∈ db.rows, r.full_path = m.full_path) →
      ∀ op ∈ ops, AllFresh db' (opPath op) scan_root := by
  intro ops
  induction ops with
  | nil => intro db stats db' stats' _ _ op hop; simp at hop
  | cons op0 rest ih =>
      intro db stats db' stats' h hpre op hop
      cases op0 with
      | ins m =>
          simp only [applyOps] at h
          cases hins : sqlInsertFile db m scan_root now with
          | none => rw [hins] at h; cases h
          | some db1 =>
              rw [hins] at h
              cases List.mem_cons.1 hop with
              | inl h0 =>
                  subst h0
                  exact applyOps_allFresh_preserve scan_root now rest db1 _ db' stats'
                    m.full_path h (allFresh_insert_self db db1 m scan_root now hins)
              | inr h0 =>
                  refine ih db1 _ db' stats' h ?_ op h0
                  intro m' w hmem
                  exact pathPresent_insert db db1 m scan_root now m'.full_path hins
                    (hpre m' w (List.mem_cons_of_mem _ hmem))
      | upd m wasDel =>
          simp only [applyOps] at h
          cases List.mem_cons.1 hop with
          | inl h0 =>
              subst h0
              exact applyOps_allFresh_preserve scan_root now rest _ _ db' stats'
                m.full_path h
                (allFresh_update_self db m scan_root now
                  (hpre m wasDel (List.mem_cons_self _ _)))
          | inr h0 =>
              refine ih _ _ db' stats' h ?_ op h0
              intro m' w hmem
              exact pathPresent_update db m scan_root now m'.full_path
                (hpre m' w (List.mem_cons_of_mem _ hmem))

lemma markMissingFold_allFresh (existing : List (String × Bool)) (now : String) :
    ∀ (ps : List String) (db : DB) (stats : Stats) (p scan_root : String),
      (∀ q ∈ ps, q ≠ p) → AllFresh db p scan_root →
      AllFresh (markMissingFold existing now (db, stats) ps).1 p scan_root := by
  intro ps
  induction ps with
  | nil => intro db stats p scan_root _ hf; exact hf
  | cons q rest ih =>
      intro db stats p scan_root hne hf
      unfold markMissingFold
      by_cases hc : existing.lookup q = some false
      · rw [if_pos hc]
        exact ih _ _ p scan_root (fun q' hq' => hne q' (List.mem_cons_of_mem _ hq'))
          (allFresh_softDelete_preserve db q now p scan_root
            (hne q (List.mem_cons_self _ _)) hf)
      · rw [if_neg hc]
        exact ih _ _ p scan_root (fun q' hq' => hne q' (List.mem_cons_of_mem _ hq')) hf

lemma opPath_classify (existing : List (String × Bool)) (m : Metadata) :
    opPath (match existing.lookup m.full_path with
      | some w => SyncOp.upd m w
      | none => SyncOp.ins m) = m.full_path := by
  rcases hl : existing.lookup m.full_path with _ | w <;> simp [hl, opPath]

lemma not_mem_of_contains_false {l : List String} {a : String}
    (h : l.contains a = false) : a ∉ l := by
  intro hm
  have : l.contains a = true := List.elem_eq_true_of_mem hm
  rw [this] at h
  cases h

/-- After a committed reconciliation run, every observed path is present
and all its rows are active, in the scan root, with `deleted_at`
absent. -/
lemma observed_allFresh (all_files : List Metadata) (scan_root now : String)
    (db dbf : DB) (statsf : Stats)
    (hb : bulk_sync_database all_files scan_root now db = some (dbf, statsf)) :
    ∀ m ∈ all_files, AllFresh dbf m.full_path scan_root := by
  rw [bulk_sync_eq] at hb
  cases ha : applyOps scan_root now db initStats
      (syncOps all_files (existingForRoot db scan_root)) with
  | none => rw [ha] at hb; cases hb
  | some p =>
      obtain ⟨db1, stats1⟩ := p
      rw [ha] at hb
      injection hb with hb
      intro m hm
      have hpre : ∀ m' w, SyncOp.upd m' w ∈
          syncOps all_files (existingForRoot db scan_root) →
          ∃ r ∈ db.rows, r.full_path = m'.full_path := by
        intro m' w hop
        obtain ⟨m'', hm'', hcl⟩ := List.mem_map.1 hop
        cases hl : (existingForRoot db scan_root).lookup m''.full_path with
        | none => rw [hl] at hcl; cases hcl
        | some w'' =>
            rw [hl] at hcl
            injection hcl with he1 he2
            subst he1
            have := lookup_mem _ _ _ hl
            obtain ⟨r, hr, hroot, hre⟩ := (mem_existingForRoot db scan_root _).1 this
            injection hre with hre1 hre2
            exact ⟨r, hr, hre1.symm⟩
      have hall := applyOps_allFresh scan_root now _ db initStats db1 stats1 ha hpre
      have hop : (match (existingForRoot db scan_root).lookup m.full_path with
          | some w => SyncOp.upd m w
          | none => SyncOp.ins m) ∈
          syncOps all_files (existingForRoot db scan_root) :=
        List.mem_map_of_mem _ hm
      have h1 : AllFresh db1 m.full_path scan_root := by
        have := hall _ hop
        rw [opPath_classify] at this
        exact this
      have hne : ∀ q ∈ missedPaths (existingForRoot db scan_root)
          (all_files.map (fun m => m.full_path)), q ≠ m.full_path := by
        intro q hq he
        subst he
        unfold missedPaths at hq
        have h2 := (List.mem_filter.1 hq).2
        rw [Bool.not_eq_eq_eq_not, Bool.not_true] at h2
        exact not_mem_of_contains_false h2 (List.mem_map_of_mem _ hm)
      have := markMissingFold_allFresh (existingForRoot db scan_root) now
        (missedPaths (existingForRoot db scan_root)
          (all_files.map (fun m => m.full_path))) db1 stats1 m.full_path scan_root
        hne h1
      rw [hb] at this
      exact this

/-! Positional analysis of the soft-delete phase and the batch loop. -/

lemma softDeletePath_getD (db : DB) (p now : String) (i : Nat)
    (hi : i < db.rows.length) :
    (softDeletePath db p now).rows.getD i defaultRecord =
      (if (db.rows.getD i defaultRecord).full_path = p ∧
          (db.rows.getD i defaultRecord).is_deleted = false
       then { db.rows.getD i defaultRecord with
              is_deleted := true, deleted_at := some now }
       else db.rows.getD i defaultRecord) :=
  getD_map_of_lt _ defaultRecord defaultRecord db.rows i hi

lemma softDeletePath_length (db : DB) (p now : String) :
    (softDeletePath db p now).rows.length = db.rows.length := by
  simp [softDeletePath]

lemma markMissingFold_length (existing : List (String × Bool)) (now : String) :
    ∀ (ps : List String) (db : DB) (stats : Stats),
      (markMissingFold existing now (db, stats) ps).1.rows.length = db.rows.length := by
  intro ps
  induction ps with
  | nil => intro db stats; rfl
  | cons p rest ih =>
      intro db stats
      unfold markMissingFold
      by_cases hc : existing.lookup p = some false
      · rw [if_pos hc, ih, softDeletePath_length]
      · rw [if_neg hc, ih]

lemma markMissingFold_fields (existing : List (String × Bool)) (now : String) :
    ∀ (ps : List String) (db : DB) (stats : Stats) (i : Nat),
      i < db.rows.length →
      ((markMissingFold existing now (db, stats) ps).1.rows.getD i defaultRecord).full_path =
        (db.rows.getD i defaultRecord).full_path ∧
      ((markMissingFold existing now (db, stats) ps).1.rows.getD i
          defaultRecord).scan_root_directory =
        (db.rows.getD i defaultRecord).scan_root_directory := by
  intro ps
  induction ps with
  | nil => intro db stats i hi; exact ⟨rfl, rfl⟩
  | cons p rest ih =>
      intro db stats i hi
      unfold markMissingFold
      by_cases hc : existing.lookup p = some false
      · rw [if_pos hc]
        have hi' : i < (softDeletePath db p now).rows.length := by
          rw [softDeletePath_length]; exact hi
        obtain ⟨e1, e2⟩ := ih (softDeletePath db p now)
          { stats with deleted := stats.deleted + 1 } i hi'
        rw [e1, e2, softDeletePath_getD db p now i hi]
        by_cases hb : (db.rows.getD i defaultRecord).full_path = p ∧
            (db.rows.getD i defaultRecord).is_deleted = false
        · rw [if_pos hb]
          exact ⟨rfl, rfl⟩
        · rw [if_neg hb]
          exact ⟨rfl, rfl⟩
      · rw [if_neg hc]
        exact ih db stats i hi

lemma markMissingFold_deleted_mono (existing : List (String × Bool)) (now : String) :
    ∀ (ps : List String) (db : DB) (stats : Stats) (i : Nat),
      i < db.rows.length →
      ((db.rows.getD i defaultRecord).is_deleted = true) →
      ((markMissingFold existing now (db, stats) ps).1.rows.getD i
        defaultRecord).is_deleted = true := by
  intro ps
  induction ps with
  | nil => intro db stats i hi hd; exact hd
  | cons p rest ih =>
      intro db stats i hi hd
      unfold markMissingFold
      by_cases hc : existing.lookup p = some false
      · rw [if_pos hc]
        have hi' : i < (softDeletePath db p now).rows.length := by
          rw [softDeletePath_length]; exact hi
        apply ih _ _ i hi'
        rw [softDeletePath_getD db p now i hi]
        by_cases hb : (db.rows.getD i defaultRecord).full_path = p ∧
            (db.rows.getD i defaultRecord).is_deleted = false
        · rw [hd] at hb
          exact absurd hb (by simp)
        · rw [if_neg hb]
          exact hd
      · rw [if_neg hc]
        exact ih db stats i hi hd

lemma markMissingFold_deleted_final (existing : List (String × Bool)) (now : String) :
    ∀ (ps : List String) (db : DB) (stats : Stats) (i : Nat) (q : String),
      i < db.rows.length →
      (db.rows.getD i defaultRecord).full_path = q →
      q ∈ ps → existing.lookup q = some false →
      ((markMissingFold existing now (db, stats) ps).1.rows.getD i
        defaultRecord).is_deleted = true := by
  intro ps
  induction ps with
  | nil => intro db stats i q _ _ hq _; simp at hq
  | cons p rest ih =>
      intro db stats i q hi hpath hq hlk
      unfold markMissingFold
      by_cases hc : existing.lookup p = some false
      · rw [if_pos hc]
        have hi' : i < (softDeletePath db p now).rows.length := by
          rw [softDeletePath_length]; exact hi
        by_cases hpq : p = q
        · subst hpq
          apply markMissingFold_deleted_mono existing now rest _ _ i hi'
          rw [softDeletePath_getD db p now i hi]
          by_cases hb : (db.rows.getD i defaultRecord).full_path = p ∧
              (db.rows.getD i defaultRecord).is_deleted = false
          · rw [if_pos hb]
          · rw [if_neg hb]
            cases hd2 : (db.rows.getD i defaultRecord).is_deleted with
            | true => rfl
            | false => exact absurd ⟨hpath, hd2⟩ hb
        · have hq' : q ∈ rest := by
            cases List.mem_cons.1 hq with
            | inl h0 => exact absurd h0.symm hpq
            | inr h0 => exact h0
          apply ih _ _ i q hi' _ hq' hlk
          rw [softDeletePath_getD db p now i hi]
          by_cases hb : (db.rows.getD i defaultRecord).full_path = p ∧
              (db.rows.getD i defaultRecord).is_deleted = false
          · exact absurd (hpath ▸ hb.1).symm hpq
          · rw [if_neg hb]
            exact hpath
      · rw [if_neg hc]
        have hq' : q ∈ rest := by
          cases List.mem_cons.1 hq with
          | inl h0 => rw [h0] at hlk; exact absurd hlk hc
          | inr h0 => exact h0
        exact ih db stats i q hi hpath hq' hlk

lemma applyOps_untouched (scan_root now : String) :
    ∀ (ops : List SyncOp) (db : DB) (stats : Stats) (db' : DB) (stats' : Stats)
      (i : Nat),
      applyOps scan_root now db stats ops = some (db', stats') →
      i < db.rows.length →
      (db.rows.getD i defaultRecord).full_path ∉ ops.map opPath →
      db'.rows.getD i defaultRecord = db.rows.getD i defaultRecord := by
  intro ops
  induction ops with
  | nil =>
      intro db stats db' stats' i h _ _
      simp only [applyOps] at h
      injection h with h
      injection h with h1 h2
      rw [h1]
  | cons op rest ih =>
      intro db stats db' stats' i h hi hnp
      have hnp1 : (db.rows.getD i defaultRecord).full_path ≠ opPath op := by
        intro he
        apply hnp
        rw [List.map_cons, he]
        exact List.mem_cons_self _ _
      have hnp2 : (db.rows.getD i defaultRecord).full_path ∉ rest.map opPath := by
        intro he
        exact hnp (by rw [List.map_cons]; exact List.mem_cons_of_mem _ he)
      cases op with
      | ins m =>
          simp only [applyOps] at h
          cases hins : sqlInsertFile db m scan_root now with
          | none => rw [hins] at h; cases h
          | some db1 =>
              rw [hins] at h
              have hstep : db1.rows.getD i defaultRecord = db.rows.getD i defaultRecord := by
                unfold sqlInsertFile at hins
                by_cases hc : db.rows.any (fun r => r.full_path == m.full_path)
                · rw [if_pos hc] at hins; cases hins
                · rw [if_neg hc] at hins
                  injection hins with hins
                  subst hins
                  exact getD_append_left defaultRecord db.rows _ i hi
              have hi1 : i < db1.rows.length :=
                Nat.lt_of_lt_of_le hi (sqlInsertFile_frame db db1 m scan_root now hins).1
              have : db'.rows.getD i defaultRecord = db1.rows.getD i defaultRecord := by
                apply ih db1 _ db' stats' i h hi1
                rw [hstep]
                exact hnp2
              rw [this, hstep]
      | upd m wasDel =>
          simp only [applyOps] at h
          have hstep : (sqlUpdateFile db m scan_root now).rows.getD i defaultRecord =
              db.rows.getD i defaultRecord := by
            unfold sqlUpdateFile
            rw [getD_map_of_lt _ defaultRecord defaultRecord db.rows i hi]
            rw [if_neg (by exact hnp1)]
          have hi1 : i < (sqlUpdateFile db m scan_root now).rows.length := by
            simp [sqlUpdateFile]; exact hi
          have : db'.rows.getD i defaultRecord =
              (sqlUpdateFile db m scan_root now).rows.getD i defaultRecord := by
            apply ih _ _ db' stats' i h hi1
            rw [hstep]
            exact hnp2
          rw [this, hstep]

lemma getD_append_self {α : Type} (d : α) :
    ∀ (l : List α) (a : α), (l ++ [a]).getD l.length d = a
  | [], a => rfl
  | b :: l, a => getD_append_self d l a

lemma map_opPath_syncOps (all_files : List Metadata) (existing : List (String × Bool)) :
    (syncOps all_files existing).map opPath = all_files.map (fun m => m.full_path) := by
  unfold syncOps
  rw [List.map_map]
  exact List.map_congr_left (fun m _ => opPath_classify existing m)

lemma contains_false_of_not_mem {l : List String} {a : String} (h : a ∉ l) :
    l.contains a = false := by
  cases hc : l.contains a with
  | false => rfl
  | true => exact absurd (List.mem_of_elem_eq_true hc) h

lemma mem_missedPaths_of (db : DB) (scan_root : String) (scanned : List String)
    (r : FileRecord) (hr : r ∈ db.rows) (hroot : r.scan_root_directory = scan_root)
    (hnot : r.full_path ∉ scanned) :
    r.full_path ∈ missedPaths (existingForRoot db scan_root) scanned := by
  unfold missedPaths
  rw [List.mem_filter]
  constructor
  · rw [List.mem_dedup]
    exact List.mem_map.2 ⟨(r.full_path, r.is_deleted),
      (mem_existingForRoot db scan_root _).2 ⟨r, hr, hroot, rfl⟩, rfl⟩
  · rw [contains_false_of_not_mem hnot]
    rfl

lemma applyOps_appended (scan_root now : String) :
    ∀ (ops : List SyncOp) (db : DB) (stats : Stats) (db' : DB) (stats' : Stats)
      (k : Nat),
      applyOps scan_root now db stats ops = some (db', stats') →
      db.rows.length ≤ k → k < db'.rows.length →
      (db'.rows.getD k defaultRecord).full_path ∈ ops.map opPath := by
  intro ops
  induction ops with
  | nil =>
      intro db stats db' stats' k h hle hlt
      simp only [applyOps] at h
      injection h with h
      injection h with h1 h2
      subst h1
      omega
  | cons op rest ih =>
      intro db stats db' stats' k h hle hlt
      cases op with
      | ins m =>
          simp only [applyOps] at h
          cases hins : sqlInsertFile db m scan_root now with
          | none => rw [hins] at h; cases h
          | some db1 =>
              rw [hins] at h
              have hins' := hins
              unfold sqlInsertFile at hins'
              by_cases hc : db.rows.any (fun r => r.full_path == m.full_path)
              · rw [if_pos hc] at hins'; cases hins'
              · rw [if_neg hc] at hins'
                injection hins' with hins'
                by_cases hk1 : k < db1.rows.length
                · have hlen1 : db1.rows.length = db.rows.length + 1 := by
                    rw [← hins']; simp
                  have hkeq : k = db.rows.length := by omega
                  have hval : db1.rows.getD k defaultRecord =
                      insertedRecord db.nextId m scan_root now := by
                    rw [← hins', hkeq]
                    exact getD_append_self defaultRecord db.rows _
                  have hpath : (db'.rows.getD k defaultRecord).full_path =
                      (db1.rows.getD k defaultRecord).full_path :=
                    (applyOps_frameOk scan_root now rest db1 _ db' stats' h |>.2 k hk1).2.1
                  rw [hpath, hval]
                  rw [List.map_cons]
                  exact List.mem_cons_self _ _
                · have : (db'.rows.getD k defaultRecord).full_path ∈ rest.map opPath :=
                    ih db1 _ db' stats' k h (Nat.le_of_not_lt hk1) hlt
                  rw [List.map_cons]
                  exact List.mem_cons_of_mem _ this
      | upd m wasDel =>
          simp only [applyOps] at h
          have hlen1 : (sqlUpdateFile db m scan_root now).rows.length = db.rows.length := by
            simp [sqlUpdateFile]
          have : (db'.rows.getD k defaultRecord).full_path ∈ rest.map opPath :=
            ih _ _ db' stats' k h (by omega) hlt
          rw [List.map_cons]
          exact List.mem_cons_of_mem _ this

/-- After a committed run over a store satisfying the path-uniqueness
constraint, every active row of the scan root holds an observed path:
an unobserved previously-active row has been soft-deleted and an
unobserved previously-deleted row stays deleted. -/
lemma active_was_observed (all_files : List Metadata) (scan_root now : String)
    (db dbf : DB) (statsf : Stats) (hu : PathsUnique db)
    (hb : bulk_sync_database all_files scan_root now db = some (dbf, statsf)) :
    ∀ r ∈ dbf.rows, r.scan_root_directory = scan_root → r.is_deleted = false →
      r.full_path ∈ all_files.map (fun m => m.full_path) := by
  rw [bulk_sync_eq] at hb
  cases ha : applyOps scan_root now db initStats
      (syncOps all_files (existingForRoot db scan_root)) with
  | none => rw [ha] at hb; cases hb
  | some p =>
      obtain ⟨db1, stats1⟩ := p
      rw [ha] at hb
      injection hb with hb
      have hb1 : (markMissingFold (existingForRoot db scan_root) now (db1, stats1)
          (missedPaths (existingForRoot db scan_root)
            (all_files.map (fun m => m.full_path)))).1 = dbf := by rw [hb]
      intro r hr hroot hact
      by_contra hnot
      obtain ⟨⟨k, hk⟩, hrk⟩ := List.mem_iff_get.1 hr
      have hrk' : dbf.rows.getD k defaultRecord = r := by
        rw [getD_eq_get _ k hk]; exact hrk
      have hlenf : dbf.rows.length = db1.rows.length := by
        rw [← hb1]
        exact markMissingFold_length _ now _ db1 stats1
      have hk1 : k < db1.rows.length := by omega
      have hflds : ((markMissingFold (existingForRoot db scan_root) now (db1, stats1)
          (missedPaths (existingForRoot db scan_root)
            (all_files.map (fun m => m.full_path)))).1.rows.getD k
          defaultRecord).full_path =
            (db1.rows.getD k defaultRecord).full_path ∧
          ((markMissingFold (existingForRoot db scan_root) now (db1, stats1)
          (missedPaths (existingForRoot db scan_root)
            (all_files.map (fun m => m.full_path)))).1.rows.getD k
          defaultRecord).scan_root_directory =
            (db1.rows.getD k defaultRecord).scan_root_directory :=
        markMissingFold_fields _ now _ db1 stats1 k hk1
      rw [hb1, hrk'] at hflds
      by_cases hkdb : k < db.rows.length
      · have huntouched : db1.rows.getD k defaultRecord = db.rows.getD k defaultRecord := by
          apply applyOps_untouched scan_root now _ db initStats db1 stats1 k ha hkdb
          rw [map_opPath_syncOps]
          intro hmem
          apply hnot
          have hpp : (db.rows.getD k defaultRecord).full_path = r.full_path := by
            have h1 := (applyOps_frameOk scan_root now _ db initStats db1 stats1 ha).2
              k hkdb
            rw [← h1.2.1, ← hflds.1]
          rw [← hpp]
          exact hmem
        have hpath : (db.rows.getD k defaultRecord).full_path = r.full_path := by
          rw [← huntouched, ← hflds.1]
        have hroot0 : (db.rows.getD k defaultRecord).scan_root_directory = scan_root := by
          rw [← huntouched, ← hflds.2]
          exact hroot
        have hmem0 : db.rows.getD k defaultRecord ∈ db.rows :=
          getD_mem_of_lt db.rows k hkdb defaultRecord
        have hq : (db.rows.getD k defaultRecord).full_path ∈
            missedPaths (existingForRoot db scan_root)
              (all_files.map (fun m => m.full_path)) :=
          mem_missedPaths_of db scan_root _ _ hmem0 hroot0 (by rw [hpath]; exact hnot)
        have hlk : (existingForRoot db scan_root).lookup
            (db.rows.getD k defaultRecord).full_path =
            some (db.rows.getD k defaultRecord).is_deleted :=
          lookup_existing_unique db scan_root hu _ hmem0 hroot0
        have hdel : (dbf.rows.getD k defaultRecord).is_deleted = true := by
          rw [← hb1]
          cases hd0 : (db.rows.getD k defaultRecord).is_deleted with
          | true =>
              apply markMissingFold_deleted_mono _ now _ db1 stats1 k hk1
              rw [huntouched]
              exact hd0
          | false =>
              apply markMissingFold_deleted_final _ now _ db1 stats1 k
                (db.rows.getD k defaultRecord).full_path hk1
                (by rw [huntouched]) hq
              rw [hlk, hd0]
        rw [hrk'] at hdel
        rw [hdel] at hact
        cases hact
      · have happ : (db1.rows.getD k defaultRecord).full_path ∈
            (syncOps all_files (existingForRoot db scan_root)).map opPath :=
          applyOps_appended scan_root now _ db initStats db1 stats1 k ha
            (Nat.le_of_not_lt hkdb) hk1
        rw [map_opPath_syncOps] at happ
        apply hnot
        rw [hflds.1]
        exact happ

/-- C6: for every committed reconciliation run over a scan root (on a
store satisfying the path-uniqueness constraint), every path that was
active in the store before the run is either among the observed paths or
is left soft-deleted by the run. -/
theorem c6_partition_complete (all_files : List Metadata) (scan_root now : String)
    (db : DB) (hu : PathsUnique db)
    (hok : syncSome all_files scan_root now db = true) :
    ∀ r ∈ db.rows, r.scan_root_directory = scan_root → r.is_deleted = false →
      r.full_path ∈ all_files.map (fun m => m.full_path) ∨
      ∃ r' ∈ (syncState all_files scan_root now db).rows,
        r'.full_path = r.full_path ∧ r'.is_deleted = true := by
  intro r hr hroot hact
  by_cases hobs : r.full_path ∈ all_files.map (fun m => m.full_path)
  · exact Or.inl hobs
  · right
    unfold syncSome at hok
    cases hb : bulk_sync_database all_files scan_root now db with
    | none => rw [hb] at hok; cases hok
    | some out =>
        obtain ⟨dbf, statsf⟩ := out
        have hsync : syncState all_files scan_root now db = dbf := by
          unfold syncState; rw [hb]
        rw [hsync]
        rw [bulk_sync_eq] at hb
        cases ha : applyOps scan_root now db initStats
            (syncOps all_files (existingForRoot db scan_root)) with
        | none => rw [ha] at hb; cases hb
        | some p =>
            obtain ⟨db1, stats1⟩ := p
            rw [ha] at hb
            injection hb with hb
            have hb1 : (markMissingFold (existingForRoot db scan_root) now (db1, stats1)
                (missedPaths (existingForRoot db scan_root)
                  (all_files.map (fun m => m.full_path)))).1 = dbf := by rw [hb]
            obtain ⟨⟨k, hk⟩, hrk⟩ := List.mem_iff_get.1 hr
            have hrk' : db.rows.getD k defaultRecord = r := by
              rw [getD_eq_get _ k hk]; exact hrk
            have huntouched : db1.rows.getD k defaultRecord = db.rows.getD k defaultRecord := by
              apply applyOps_untouched scan_root now _ db initStats db1 stats1 k ha hk
              rw [map_opPath_syncOps, hrk']
              exact hobs
            have hk1 : k < db1.rows.length :=
              Nat.lt_of_lt_of_le hk
                (applyOps_frameOk scan_root now _ db initStats db1 stats1 ha).1
            have hlenf : dbf.rows.length = db1.rows.length := by
              rw [← hb1]
              exact markMissingFold_length _ now _ db1 stats1
            have hq : r.full_path ∈ missedPaths (existingForRoot db scan_root)
                (all_files.map (fun m => m.full_path)) := by
              have := mem_missedPaths_of db scan_root
                (all_files.map (fun m => m.full_path)) r hr hroot hobs
              exact this
            have hlk : (existingForRoot db scan_root).lookup r.full_path =
                some false := by
              rw [← hact]
              exact lookup_existing_unique db scan_root hu r hr hroot
            have hdel : (dbf.rows.getD k defaultRecord).is_deleted = true := by
              rw [← hb1]
              apply markMissingFold_deleted_final _ now _ db1 stats1 k r.full_path hk1
                (by rw [huntouched, hrk']) hq hlk
            have hpath : (dbf.rows.getD k defaultRecord).full_path = r.full_path := by
              have hflds := markMissingFold_fields (existingForRoot db scan_root) now
                (missedPaths (existingForRoot db scan_root)
                  (all_files.map (fun m => m.full_path))) db1 stats1 k hk1
              rw [hb1] at hflds
              rw [hflds.1, huntouched, hrk']
            refine ⟨dbf.rows.getD k defaultRecord, ?_, hpath, hdel⟩
            exact getD_mem_of_lt dbf.rows k (by omega) defaultRecord

theorem c6_witness :
    PathsUnique wdb ∧ syncSome [] "r" "t" wdb = true ∧
    (∀ r ∈ wdb.rows, r.scan_root_directory = "r" → r.is_deleted = false →
      r.full_path ∈ ([] : List Metadata).map (fun m => m.full_path) ∨
      ∃ r' ∈ (syncState [] "r" "t" wdb).rows,
        r'.full_path = r.full_path ∧ r'.is_deleted = true) :=
  ⟨by decide, by decide, c6_partition_complete [] "r" "t" wdb (by decide) (by decide)⟩

/-! Characterization of the reported statistics. -/

lemma countP_congr' {α : Type} (p q : α → Bool) :
    ∀ l : List α, (∀ a ∈ l, p a = q a) → l.countP p = l.countP q := by
  intro l
  induction l with
  | nil => intro _; rfl
  | cons a t ih =>
      intro h
      rw [List.countP_cons, List.countP_cons, h a (List.mem_cons_self _ _),
        ih (fun b hb => h b (List.mem_cons_of_mem _ hb))]

lemma countP_syncOps (all_files : List Metadata) (existing : List (String × Bool))
    (g : SyncOp → Bool) (f : Metadata → Bool)
    (hgf : ∀ m, g (match existing.lookup m.full_path with
      | some w => SyncOp.upd m w
      | none => SyncOp.ins m) = f m) :
    (syncOps all_files existing).countP g = all_files.countP f := by
  unfold syncOps
  rw [List.countP_map]
  exact countP_congr' _ _ all_files (fun m _ => hgf m)

lemma isInsOp_classify (existing : List (String × Bool)) (m : Metadata) :
    isInsOp (match existing.lookup m.full_path with
      | some w => SyncOp.upd m w
      | none => SyncOp.ins m) = decide (existing.lookup m.full_path = none) := by
  rcases hl : existing.lookup m.full_path with _ | w <;> simp [hl, isInsOp]

lemma isRestoreOp_classify (existing : List (String × Bool)) (m : Metadata) :
    isRestoreOp (match existing.lookup m.full_path with
      | some w => SyncOp.upd m w
      | none => SyncOp.ins m) = decide (existing.lookup m.full_path = some true) := by
  rcases hl : existing.lookup m.full_path with _ | w
  · simp [hl, isRestoreOp]
  · cases w <;> simp [hl, isRestoreOp]

lemma isUpdateOp_classify (existing : List (String × Bool)) (m : Metadata) :
    isUpdateOp (match existing.lookup m.full_path with
      | some w => SyncOp.upd m w
      | none => SyncOp.ins m) = decide (existing.lookup m.full_path = some false) := by
  rcases hl : existing.lookup m.full_path with _ | w
  · simp [hl, isUpdateOp]
  · cases w <;> simp [hl, isUpdateOp]

/-- A committed run reports: inserted = observed paths absent from the
snapshot, updated = observed paths recorded active, restored = observed
paths recorded soft-deleted, deleted = unobserved snapshot paths
recorded active. -/
lemma syncStats_characterization (all_files : List Metadata) (scan_root now : String)
    (db dbf : DB) (statsf : Stats)
    (hb : bulk_sync_database all_files scan_root now db = some (dbf, statsf)) :
    statsf.inserted = all_files.countP
      (fun m => decide ((existingForRoot db scan_root).lookup m.full_path = none)) ∧
    statsf.updated = all_files.countP
      (fun m => decide ((existingForRoot db scan_root).lookup m.full_path = some false)) ∧
    statsf.restored = all_files.countP
      (fun m => decide ((existingForRoot db scan_root).lookup m.full_path = some true)) ∧
    statsf.deleted = (missedPaths (existingForRoot db scan_root)
        (all_files.map (fun m => m.full_path))).countP
      (fun p => decide ((existingForRoot db scan_root).lookup p = some false)) := by
  rw [bulk_sync_eq] at hb
  cases ha : applyOps scan_root now db initStats
      (syncOps all_files (existingForRoot db scan_root)) with
  | none => rw [ha] at hb; cases hb
  | some p =>
      obtain ⟨db1, stats1⟩ := p
      rw [ha] at hb
      injection hb with hb
      have hb2 : (markMissingFold (existingForRoot db scan_root) now (db1, stats1)
          (missedPaths (existingForRoot db scan_root)
            (all_files.map (fun m => m.full_path)))).2 = statsf := by rw [hb]
      obtain ⟨hm1, hm2, hm3, hm4⟩ := markMissingFold_stats (existingForRoot db scan_root)
        now (missedPaths (existingForRoot db scan_root)
          (all_files.map (fun m => m.full_path))) db1 stats1
      rw [hb2] at hm1 hm2 hm3 hm4
      obtain ⟨ha1, ha2, ha3, ha4⟩ := applyOps_stats scan_root now _ db initStats
        db1 stats1 ha
      refine ⟨?_, ?_, ?_, ?_⟩
      · rw [hm1, ha1]
        show 0 + _ = _
        rw [Nat.zero_add]
        exact countP_syncOps all_files _ isInsOp _ (isInsOp_classify _)
      · rw [hm2, ha2]
        show 0 + _ = _
        rw [Nat.zero_add]
        exact countP_syncOps all_files _ isUpdateOp _ (isUpdateOp_classify _)
      · rw [hm3, ha3]
        show 0 + _ = _
        rw [Nat.zero_add]
        exact countP_syncOps all_files _ isRestoreOp _ (isRestoreOp_classify _)
      · rw [hm4, ha4]
        show 0 + _ = _
        rw [Nat.zero_add]

/-- Destructuring a committed run. -/
lemma sync_destruct (all_files : List Metadata) (scan_root now : String) (db : DB)
    (hok : syncSome all_files scan_root now db = true) :
    bulk_sync_database all_files scan_root now db =
      some (syncState all_files scan_root now db,
        syncStats all_files scan_root now db) := by
  unfold syncSome at hok
  cases hb : bulk_sync_database all_files scan_root now db with
  | none => rw [hb] at hok; cases hok
  | some out =>
      obtain ⟨a, b⟩ := out
      have h1 : syncState all_files scan_root now db = a := by
        unfold syncState; rw [hb]
      have h2 : syncStats all_files scan_root now db = b := by
        unfold syncStats; rw [hb]
      rw [h1, h2]

/-- C9: a soft-deleted record of the scan root whose path is observed
again is restored in place: same position, same `id`, same `file_hash`,
`is_deleted` cleared and `deleted_at` absent; the run counts it under
`restored` (observed soft-deleted paths), never under `updated` (observed
active paths) or `inserted` (unrecorded paths), and `restored` is
positive. -/
theorem c9_restore (all_files : List Metadata) (scan_root now : String) (db : DB)
    (i : Nat) (hu : PathsUnique db)
    (hok : syncSome all_files scan_root now db = true)
    (hi : i < db.rows.length)
    (hdel : (db.rows.getD i defaultRecord).is_deleted = true)
    (hroot : (db.rows.getD i defaultRecord).scan_root_directory = scan_root)
    (hobs : (db.rows.getD i defaultRecord).full_path ∈
      all_files.map (fun m => m.full_path)) :
    ((syncState all_files scan_root now db).rows.getD i defaultRecord).full_path =
      (db.rows.getD i defaultRecord).full_path ∧
    ((syncState all_files scan_root now db).rows.getD i defaultRecord).id =
      (db.rows.getD i defaultRecord).id ∧
    ((syncState all_files scan_root now db).rows.getD i defaultRecord).file_hash =
      (db.rows.getD i defaultRecord).file_hash ∧
    ((syncState all_files scan_root now db).rows.getD i defaultRecord).is_deleted = false ∧
    ((syncState all_files scan_root now db).rows.getD i defaultRecord).deleted_at = none ∧
    (syncStats all_files scan_root now db).restored = all_files.countP
      (fun m => decide ((existingForRoot db scan_root).lookup m.full_path = some true)) ∧
    (syncStats all_files scan_root now db).updated = all_files.countP
      (fun m => decide ((existingForRoot db scan_root).lookup m.full_path = some false)) ∧
    (syncStats all_files scan_root now db).inserted = all_files.countP
      (fun m => decide ((existingForRoot db scan_root).lookup m.full_path = none)) ∧
    1 ≤ (syncStats all_files scan_root now db).restored := by
  have hb := sync_destruct all_files scan_root now db hok
  have hframe := syncState_frameOk all_files scan_root now db
  obtain ⟨e1, e2, e3, e4⟩ := hframe.2 i hi
  obtain ⟨m, hm, hmp⟩ := List.mem_map.1 hobs
  have hfresh := observed_allFresh all_files scan_root now db _ _ hb m hm
  have hmem' : (syncState all_files scan_root now db).rows.getD i defaultRecord ∈
      (syncState all_files scan_root now db).rows :=
    getD_mem_of_lt _ i (Nat.lt_of_lt_of_le hi hframe.1) defaultRecord
  have hpath' : ((syncState all_files scan_root now db).rows.getD i
      defaultRecord).full_path = m.full_path := by
    rw [e2, hmp]
  have hstate := hfresh.2 _ hmem' hpath'
  have hch := syncStats_characterization all_files scan_root now db _ _ hb
  have hlkup : (existingForRoot db scan_root).lookup
      (db.rows.getD i defaultRecord).full_path = some true := by
    rw [← hdel]
    exact lookup_existing_unique db scan_root hu _
      (getD_mem_of_lt db.rows i hi defaultRecord) hroot
  refine ⟨e2, e1, e3, hstate.1, hstate.2.2, hch.2.2.1, hch.2.1, hch.1, ?_⟩
  rw [hch.2.2.1]
  have : 0 < all_files.countP
      (fun m => decide ((existingForRoot db scan_root).lookup m.full_path = some true)) := by
    rw [List.countP_pos]
    refine ⟨m, hm, ?_⟩
    rw [hmp, hlkup]
    simp
  omega

/-- A store holding one soft-deleted hashed row of scan root `r` whose
path `a` is about to be re-observed. -/
def delRec : FileRecord :=
  { defaultRecord with
    id := 1, full_path := "a", scan_root_directory := "r", file_size_bytes := 5,
    is_deleted := true, deleted_at := some "t0", file_hash := some "h" }

def delDB : DB := ⟨[delRec], 2⟩

theorem c9_witness :
    PathsUnique delDB ∧ syncSome [mW] "r" "t1" delDB = true ∧
    0 < delDB.rows.length ∧
    (delDB.rows.getD 0 defaultRecord).is_deleted = true ∧
    (delDB.rows.getD 0 defaultRecord).scan_root_directory = "r" ∧
    (delDB.rows.getD 0 defaultRecord).full_path ∈ [mW].map (fun m => m.full_path) ∧
    (((syncState [mW] "r" "t1" delDB).rows.getD 0 defaultRecord).full_path =
        (delDB.rows.getD 0 defaultRecord).full_path ∧
      ((syncState [mW] "r" "t1" delDB).rows.getD 0 defaultRecord).id =
        (delDB.rows.getD 0 defaultRecord).id ∧
      ((syncState [mW] "r" "t1" delDB).rows.getD 0 defaultRecord).file_hash =
        (delDB.rows.getD 0 defaultRecord).file_hash ∧
      ((syncState [mW] "r" "t1" delDB).rows.getD 0 defaultRecord).is_deleted = false ∧
      ((syncState [mW] "r" "t1" delDB).rows.getD 0 defaultRecord).deleted_at = none ∧
      (syncStats [mW] "r" "t1" delDB).restored = [mW].countP
        (fun m => decide ((existingForRoot delDB "r").lookup m.full_path = some true)) ∧
      (syncStats [mW] "r" "t1" delDB).updated = [mW].countP
        (fun m => decide ((existingForRoot delDB "r").lookup m.full_path = some false)) ∧
      (syncStats [mW] "r" "t1" delDB).inserted = [mW].countP
        (fun m => decide ((existingForRoot delDB "r").lookup m.full_path = none)) ∧
      1 ≤ (syncStats [mW] "r" "t1" delDB).restored) :=
  ⟨by decide, by decide, by decide, by decide, by decide, by decide,
    c9_restore [mW] "r" "t1" delDB 0 (by decide) (by decide) (by decide) (by decide)
      (by decide) (by decide)⟩

/-! Idempotence of reconciliation (second run over an unchanged
directory). -/

lemma lookup_of_allFresh (db : DB) (p scan_root : String)
    (h : AllFresh db p scan_root) :
    (existingForRoot db scan_root).lookup p = some false := by
  apply lookup_all_val
  · obtain ⟨r, hr, hp⟩ := h.1
    have h3 := h.2 r hr hp
    exact ⟨(r.full_path, r.is_deleted),
      (mem_existingForRoot db scan_root _).2 ⟨r, hr, h3.2.1, rfl⟩, hp⟩
  · intro e he hek
    obtain ⟨r, hr, hroot, hre⟩ := (mem_existingForRoot db scan_root e).1 he
    subst hre
    exact (h.2 r hr hek).1

lemma applyOps_total (scan_root now : String) :
    ∀ (ops : List SyncOp) (db : DB) (stats : Stats),
      (∀ op ∈ ops, isInsOp op = false) →
      ∃ out, applyOps scan_root now db stats ops = some out := by
  intro ops
  induction ops with
  | nil => intro db stats _; exact ⟨(db, stats), rfl⟩
  | cons op rest ih =>
      intro db stats hno
      cases op with
      | ins m =>
          have := hno _ (List.mem_cons_self _ _)
          simp [isInsOp] at this
      | upd m w =>
          simp only [applyOps]
          exact ih _ _ (fun op h => hno op (List.mem_cons_of_mem _ h))

lemma syncSome_of_applyOps (all_files : List Metadata) (scan_root now : String)
    (db : DB)
    (h : ∃ out, applyOps scan_root now db initStats
      (syncOps all_files (existingForRoot db scan_root)) = some out) :
    syncSome all_files scan_root now db = true := by
  obtain ⟨out, hout⟩ := h
  obtain ⟨a, b⟩ := out
  unfold syncSome
  rw [bulk_sync_eq, hout]
  rfl

/-- C3 counterexample: starting from an empty store, reconciling the
single file `a` twice reports `updated = 1` (not `0`) on the second,
identical run — the code counts every re-observed active path as
updated. -/
theorem c3_counterexample :
    syncStats [mW] "r" "t2" (syncState [mW] "r" "t1" ⟨[], 1⟩) =
      { inserted := 0, updated := 1, restored := 0, deleted := 0 } := by decide

/-- C3 (amended): when reconciliation is run twice in succession over
the same scan root with an identical observed file set (on a store
satisfying the path-uniqueness constraint), the second run commits and
reports inserted = 0, restored = 0 and soft-deleted = 0, while updated
equals the number of observed files (every re-observed active path is
counted as updated even when nothing changed). -/
theorem c3_second_run_stats (all_files : List Metadata) (scan_root t1 t2 : String)
    (db : DB) (hu : PathsUnique db)
    (hok : syncSome all_files scan_root t1 db = true) :
    syncSome all_files scan_root t2 (syncState all_files scan_root t1 db) = true ∧
    (syncStats all_files scan_root t2 (syncState all_files scan_root t1 db)).inserted = 0 ∧
    (syncStats all_files scan_root t2 (syncState all_files scan_root t1 db)).restored = 0 ∧
    (syncStats all_files scan_root t2 (syncState all_files scan_root t1 db)).deleted = 0 ∧
    (syncStats all_files scan_root t2 (syncState all_files scan_root t1 db)).updated =
      all_files.length := by
  have hb1 := sync_destruct all_files scan_root t1 db hok
  have hfresh := observed_allFresh all_files scan_root t1 db _ _ hb1
  have hlk2 : ∀ m ∈ all_files,
      (existingForRoot (syncState all_files scan_root t1 db) scan_root).lookup
        m.full_path = some false :=
    fun m hm => lookup_of_allFresh _ _ _ (hfresh m hm)
  have hnoins : ∀ op ∈ syncOps all_files
      (existingForRoot (syncState all_files scan_root t1 db) scan_root),
      isInsOp op = false := by
    intro op hop
    obtain ⟨m, hm, hcl⟩ := List.mem_map.1 hop
    rw [← hcl]
    rw [isInsOp_classify, hlk2 m hm]
    rfl
  have hok2 : syncSome all_files scan_root t2 (syncState all_files scan_root t1 db) =
      true :=
    syncSome_of_applyOps _ _ _ _ (applyOps_total scan_root t2 _ _ initStats hnoins)
  have hb2 := sync_destruct all_files scan_root t2 (syncState all_files scan_root t1 db)
    hok2
  obtain ⟨hc1, hc2, hc3, hc4⟩ := syncStats_characterization all_files scan_root t2
    (syncState all_files scan_root t1 db) _ _ hb2
  refine ⟨hok2, ?_, ?_, ?_, ?_⟩
  · rw [hc1]
    rw [List.countP_eq_zero]
    intro m hm
    rw [hlk2 m hm]
    simp
  · rw [hc3]
    rw [List.countP_eq_zero]
    intro m hm
    rw [hlk2 m hm]
    simp
  · rw [hc4]
    rw [List.countP_eq_zero]
    intro q hq
    have hq2 := (List.mem_filter.1 hq).2
    rw [Bool.not_eq_eq_eq_not, Bool.not_true] at hq2
    have hqnot : q ∉ all_files.map (fun m => m.full_path) :=
      not_mem_of_contains_false hq2
    intro hdec
    rw [decide_eq_true_eq] at hdec
    obtain ⟨r1, hr1, hroot1, hre1⟩ :=
      (mem_existingForRoot _ scan_root _).1 (lookup_mem _ _ _ hdec)
    injection hre1 with hre1a hre1b
    have hu1 : PathsUnique (syncState all_files scan_root t1 db) :=
      syncState_pathsUnique all_files scan_root t1 db hu
    have hobs1 := active_was_observed all_files scan_root t1 db _ _ hu hb1 r1 hr1
      hroot1 hre1b.symm
    apply hqnot
    rw [hre1a]
    exact hobs1
  · rw [hc2]
    rw [List.countP_eq_length]
    intro m hm
    rw [hlk2 m hm]
    simp

theorem c3_witness :
    PathsUnique (⟨[], 1⟩ : DB) ∧ syncSome [mW] "r" "t1" ⟨[], 1⟩ = true ∧
    (syncSome [mW] "r" "t2" (syncState [mW] "r" "t1" ⟨[], 1⟩) = true ∧
      (syncStats [mW] "r" "t2" (syncState [mW] "r" "t1" ⟨[], 1⟩)).inserted = 0 ∧
      (syncStats [mW] "r" "t2" (syncState [mW] "r" "t1" ⟨[], 1⟩)).restored = 0 ∧
      (syncStats [mW] "r" "t2" (syncState [mW] "r" "t1" ⟨[], 1⟩)).deleted = 0 ∧
      (syncStats [mW] "r" "t2" (syncState [mW] "r" "t1" ⟨[], 1⟩)).updated =
        [mW].length) :=
  ⟨by decide, by decide, c3_second_run_stats [mW] "r" "t1" "t2" ⟨[], 1⟩
    (by decide) (by decide)⟩

/-- C10: directory validation precedes the walk — when the target does
not exist or is not a directory, `scan_directory` reports no result
statistics and the store state is exactly the prior state (no write of
any kind). -/
theorem c10_invalid_target (fs : FSView) (scan_root now : String) (db : DB)
    (h : fs.rootExists = false ∨ fs.rootIsDir = false) :
    scan_directory fs scan_root now db = (none, db) := by
  unfold scan_directory
  cases h with
  | inl h1 => simp [h1]
  | inr h2 =>
      by_cases he : fs.rootExists = false
      · simp [he]
      · simp [he, h2]

/-- A walk target that does not exist. -/
def badFS : FSView := ⟨false, false, [mW]⟩

theorem c10_witness :
    (badFS.rootExists = false ∨ badFS.rootIsDir = false) ∧
    scan_directory badFS "r" "t" wdb = (none, wdb) :=
  ⟨Or.inl rfl, c10_invalid_target badFS "r" "t" wdb (Or.inl rfl)⟩

/-- C8: the wasted-space metric for a scan root is the sum over its
duplicate groups of (member count − 1) × member size, whenever the
active members of each group share one size (the SQL query reads the
size from an arbitrary member row, so a uniform size is what gives the
formula meaning). -/
theorem c8_wasted_space (db : DB) (scan_root : String) (sz : Nat → Nat)
    (h : ∀ g ∈ groupIds db scan_root, ∀ r ∈ groupMembers db scan_root g,
      r.file_size_bytes = sz g) :
    wasted_bytes db scan_root =
      ((groupIds db scan_root).map
        (fun g => ((groupMembers db scan_root g).length - 1) * sz g)).sum := by
  unfold wasted_bytes
  congr 1
  apply List.map_congr_left
  intro g hg
  unfold groupWasted
  congr 1
  have hne : groupMembers db scan_root g ≠ [] := by
    intro hempty
    unfold groupIds at hg
    rw [List.mem_dedup] at hg
    obtain ⟨r, hr, hrg⟩ := List.mem_filterMap.1 hg
    have hmem : r ∈ groupMembers db scan_root g := by
      unfold groupMembers
      rw [List.mem_filter]
      exact ⟨hr, by simp [hrg]⟩
    rw [hempty] at hmem
    simp at hmem
  cases hh : (groupMembers db scan_root g).head? with
  | none => exact absurd (List.head?_eq_none_iff.1 hh) hne
  | some r0 =>
      have hr0 : r0 ∈ groupMembers db scan_root g := List.mem_of_mem_head? hh
      simp [h g hg r0 hr0]

/-- A duplicate group of two active 1000-byte members in scan root `r`. -/
def dupRec1 : FileRecord :=
  { defaultRecord with
    id := 1, full_path := "a", scan_root_directory := "r",
    file_size_bytes := 1000, file_hash := some "h", duplicate_group := some 1 }

def dupRec2 : FileRecord :=
  { defaultRecord with
    id := 2, full_path := "b", scan_root_directory := "r",
    file_size_bytes := 1000, file_hash := some "h", duplicate_group := some 1 }

def dupDB : DB := ⟨[dupRec1, dupRec2], 3⟩

theorem c8_witness :
    (∀ g ∈ groupIds dupDB "r", ∀ r ∈ groupMembers dupDB "r" g,
      r.file_size_bytes = (fun _ => 1000) g) ∧
    wasted_bytes dupDB "r" = 1000 :=
  ⟨by decide, (c8_wasted_space dupDB "r" (fun _ => 1000) (by decide)).trans (by decide)⟩

/-! Candidate selection: exact membership and cap enforcement. -/

lemma mem_selectedSizes (db : DB) (minSize maxGroup : Nat) (scan_root : String)
    (s : Nat) :
    s ∈ selectedSizes db minSize maxGroup scan_root ↔
      2 ≤ sizeCount db minSize scan_root s ∧
        sizeCount db minSize scan_root s ≤ maxGroup := by
  unfold selectedSizes
  rw [(List.perm_insertionSort _ _).mem_iff]
  rw [List.mem_filter, List.mem_dedup]
  constructor
  · intro ⟨hmem, hcond⟩
    rw [decide_eq_true_eq] at hcond
    exact ⟨by omega, hcond.2⟩
  · intro ⟨h2, hle⟩
    refine ⟨?_, by rw [decide_eq_true_eq]; exact ⟨by omega, hle⟩⟩
    have hpos : 0 < sizeCount db minSize scan_root s := by omega
    unfold sizeCount at hpos
    rw [List.length_pos] at hpos
    obtain ⟨r, hr⟩ := List.exists_mem_of_ne_nil _ hpos
    have hrf := List.mem_filter.1 hr
    have hrp := hrf.2
    rw [decide_eq_true_eq] at hrp
    obtain ⟨hd, hmin, hroot, hsz⟩ := hrp
    refine List.mem_map.2 ⟨r, List.mem_filter.2 ⟨hrf.1, ?_⟩, hsz⟩
    rw [decide_eq_true_eq]
    exact ⟨hd, hmin, hroot⟩

lemma mem_candidates_fst (db : DB) (minSize maxGroup : Nat) (scan_root : String)
    (s : Nat) :
    s ∈ (get_size_candidates db minSize maxGroup scan_root).map Prod.fst ↔
      s ∈ selectedSizes db minSize maxGroup scan_root := by
  unfold get_size_candidates
  rw [List.map_map]
  have h : Prod.fst ∘ (fun s => (s, sizeMembers db scan_root s)) = id := rfl
  rw [h, List.map_id]

lemma writeHash_length (db : DB) (fid : Nat) (h now : String) :
    (writeHash db fid h now).rows.length = db.rows.length := by
  simp [writeHash]

lemma writeHash_untouched (db : DB) (fid : Nat) (h now : String) (i : Nat)
    (hi : i < db.rows.length)
    (hne : (db.rows.getD i defaultRecord).id ≠ fid) :
    (writeHash db fid h now).rows.getD i defaultRecord =
      db.rows.getD i defaultRecord := by
  unfold writeHash
  rw [getD_map_of_lt _ defaultRecord defaultRecord db.rows i hi]
  rw [if_neg hne]

lemma hashCandidates_length (disk : String → Option String) (now : String) :
    ∀ (entries : List (Nat × String × Option String)) (db : DB),
      (hashCandidates disk now db entries).1.rows.length = db.rows.length := by
  intro entries
  induction entries with
  | nil => intro db; rfl
  | cons e rest ih =>
      intro db
      obtain ⟨fid, path, ehash⟩ := e
      cases ehash with
      | some h0 => exact ih db
      | none =>
          cases hdp : disk path with
          | none =>
              have hstep : hashCandidates disk now db ((fid, path, none) :: rest) =
                  hashCandidates disk now db rest := by
                simp only [hashCandidates, hdp]
              rw [hstep]
              exact ih db
          | some h0 =>
              have hstep : (hashCandidates disk now db ((fid, path, none) :: rest)).1 =
                  (hashCandidates disk now (writeHash db fid h0 now) rest).1 := by
                simp only [hashCandidates, hdp]
              rw [hstep, ih (writeHash db fid h0 now), writeHash_length]

lemma hashCandidates_untouched (disk : String → Option String) (now : String) :
    ∀ (entries : List (Nat × String × Option String)) (db : DB) (i : Nat),
      i < db.rows.length →
      (∀ e ∈ entries, e.1 ≠ (db.rows.getD i defaultRecord).id) →
      (hashCandidates disk now db entries).1.rows.getD i defaultRecord =
        db.rows.getD i defaultRecord := by
  intro entries
  induction entries with
  | nil => intro db i _ _; rfl
  | cons e rest ih =>
      intro db i hi hne
      obtain ⟨fid, path, ehash⟩ := e
      cases ehash with
      | some h0 =>
          exact ih db i hi (fun e he => hne e (List.mem_cons_of_mem _ he))
      | none =>
          cases hdp : disk path with
          | none =>
              have hstep : hashCandidates disk now db ((fid, path, none) :: rest) =
                  hashCandidates disk now db rest := by
                simp only [hashCandidates, hdp]
              rw [hstep]
              exact ih db i hi (fun e he => hne e (List.mem_cons_of_mem _ he))
          | some h0 =>
              have hstep : (hashCandidates disk now db ((fid, path, none) :: rest)).1 =
                  (hashCandidates disk now (writeHash db fid h0 now) rest).1 := by
                simp only [hashCandidates, hdp]
              rw [hstep]
              have hfid : (db.rows.getD i defaultRecord).id ≠ fid :=
                fun he => hne (fid, path, none) (List.mem_cons_self _ _) he.symm
              have hw := writeHash_untouched db fid h0 now i hi hfid
              have hi' : i < (writeHash db fid h0 now).rows.length := by
                rw [writeHash_length]; exact hi
              rw [ih (writeHash db fid h0 now) i hi' (by
                intro e he
                rw [hw]
                exact hne e (List.mem_cons_of_mem _ he)), hw]

lemma hashAllCandidates_length (disk : String → Option String) (now : String) :
    ∀ (gs : List (Nat × List (Nat × String × Option String))) (db : DB),
      (hashAllCandidates disk now db gs).1.rows.length = db.rows.length := by
  intro gs
  induction gs with
  | nil => intro db; rfl
  | cons g rest ih =>
      intro db
      obtain ⟨sz0, files⟩ := g
      show (hashAllCandidates disk now (hashCandidates disk now db files).1 rest).1.rows.length = _
      rw [ih, hashCandidates_length]

lemma hashAllCandidates_untouched (disk : String → Option String) (now : String) :
    ∀ (gs : List (Nat × List (Nat × String × Option String))) (db : DB) (i : Nat),
      i < db.rows.length →
      (∀ g ∈ gs, ∀ e ∈ g.2, e.1 ≠ (db.rows.getD i defaultRecord).id) →
      (hashAllCandidates disk now db gs).1.rows.getD i defaultRecord =
        db.rows.getD i defaultRecord := by
  intro gs
  induction gs with
  | nil => intro db i _ _; rfl
  | cons g rest ih =>
      intro db i hi hne
      obtain ⟨sz0, files⟩ := g
      show (hashAllCandidates disk now (hashCandidates disk now db files).1 rest).1.rows.getD i
        defaultRecord = _
      have hc := hashCandidates_untouched disk now files db i hi
        (fun e he => hne (sz0, files) (List.mem_cons_self _ _) e he)
      have hi' : i < (hashCandidates disk now db files).1.rows.length := by
        rw [hashCandidates_length]; exact hi
      rw [ih _ i hi' (by
        intro g hg e he
        rw [hc]
        exact hne g (List.mem_cons_of_mem _ hg) e he), hc]

lemma mem_sizeMembers (db : DB) (scan_root : String) (s : Nat)
    (e : Nat × String × Option String) (he : e ∈ sizeMembers db scan_root s) :
    ∃ r ∈ db.rows, r.is_deleted = false ∧ r.file_size_bytes = s ∧
      r.scan_root_directory = scan_root ∧ e.1 = r.id := by
  unfold sizeMembers at he
  obtain ⟨r, hr, hre⟩ := List.mem_map.1 he
  have hrf := List.mem_filter.1 hr
  have hrp := hrf.2
  rw [decide_eq_true_eq] at hrp
  exact ⟨r, hrf.1, hrp.1, hrp.2.1, hrp.2.2, by rw [← hre]⟩

lemma assign_hash_getD (db : DB) (scan_root : String) (i : Nat)
    (hi : i < db.rows.length) :
    ((assign_duplicate_groups db scan_root).1.rows.getD i defaultRecord).file_hash =
      (db.rows.getD i defaultRecord).file_hash := by
  rw [assign_getD db scan_root i hi]
  rw [(assignFun_fields _ _ _ _).2.2, (resetFun_fields _ _).2.2]

/-- C7: candidate selection returns exactly the sizes whose active-member
count (among rows of that size at or above the minimum hashable size in
the scan root) lies in [2, maxGroup]; and a size with more active
members than the cap is excluded entirely, so a row of that size never
gains a hash from the duplicate-detection pass. -/
theorem c7_candidate_selection (minSize maxGroup : Nat) (db : DB)
    (scan_root : String) (s : Nat) :
    (s ∈ (get_size_candidates db minSize maxGroup scan_root).map Prod.fst ↔
      2 ≤ sizeCount db minSize scan_root s ∧
        sizeCount db minSize scan_root s ≤ maxGroup) ∧
    (∀ (disk : String → Option String) (now : String) (i : Nat),
      IdsUnique db → maxGroup < sizeCount db minSize scan_root s →
      i < db.rows.length →
      (db.rows.getD i defaultRecord).file_size_bytes = s →
      ((compute_hashes_for_candidates disk minSize maxGroup db scan_root now).1.rows.getD i
        defaultRecord).file_hash = (db.rows.getD i defaultRecord).file_hash) := by
  constructor
  · rw [mem_candidates_fst]
    exact mem_selectedSizes db minSize maxGroup scan_root s
  · intro disk now i hid hcap hi hsz
    have hnot : s ∉ selectedSizes db minSize maxGroup scan_root := by
      intro hmem
      have := (mem_selectedSizes db minSize maxGroup scan_root s).1 hmem
      omega
    rw [compute_hashes_eq]
    by_cases hc : get_size_candidates db minSize maxGroup scan_root = []
    · rw [if_pos hc]
    · rw [if_neg hc]
      have hidsne : ∀ g ∈ get_size_candidates db minSize maxGroup scan_root,
          ∀ e ∈ g.2, e.1 ≠ (db.rows.getD i defaultRecord).id := by
        intro g hg e he hee
        unfold get_size_candidates at hg
        obtain ⟨s', hs', hgs'⟩ := List.mem_map.1 hg
        have hsne : s' ≠ s := fun hss => hnot (hss ▸ hs')
        have he2 : e ∈ sizeMembers db scan_root s' := by
          rw [← hgs'] at he
          exact he
        obtain ⟨r, hr, hrd, hrs, hrroot, hrid⟩ := mem_sizeMembers db scan_root s' e he2
        have hre : r = db.rows.getD i defaultRecord := by
          unfold IdsUnique at hid
          exact List.inj_on_of_nodup_map hid hr
            (getD_mem_of_lt db.rows i hi defaultRecord) (by rw [← hrid, hee])
        apply hsne
        rw [← hrs, hre, hsz]
      have huntouched := hashAllCandidates_untouched disk now
        (get_size_candidates db minSize maxGroup scan_root) db i hi hidsne
      have hi' : i < (hashAllCandidates disk now db
          (get_size_candidates db minSize maxGroup scan_root)).1.rows.length := by
        rw [hashAllCandidates_length]; exact hi
      show ((assign_duplicate_groups (hashAllCandidates disk now db
          (get_size_candidates db minSize maxGroup scan_root)).1
          scan_root).1.rows.getD i defaultRecord).file_hash = _
      rw [assign_hash_getD _ scan_root i hi', huntouched]

theorem c7_witness :
    (5 ∈ (get_size_candidates wdb 1 100 "r").map Prod.fst ↔
      2 ≤ sizeCount wdb 1 "r" 5 ∧ sizeCount wdb 1 "r" 5 ≤ 100) ∧
    (IdsUnique dupDB ∧ 1 < sizeCount dupDB 1 "r" 1000 ∧ 0 < dupDB.rows.length ∧
      (dupDB.rows.getD 0 defaultRecord).file_size_bytes = 1000 ∧
      ((compute_hashes_for_candidates (fun _ => some "k") 1 1 dupDB "r" "t").1.rows.getD 0
        defaultRecord).file_hash = (dupDB.rows.getD 0 defaultRecord).file_hash) :=
  ⟨(c7_candidate_selection 1 100 wdb "r" 5).1,
    by decide, by decide, by decide, by decide,
    (c7_candidate_selection 1 1 dupDB "r" 1000).2 (fun _ => some "k") "t" 0
      (by decide) (by decide) (by decide) (by decide)⟩

end DirAnalytics
